import Mathlib

/-!
# Property-name resolution of `swag` (`property.go`)

A shallow embedding of `property.go`: the descriptor `propertyName`, its two
constructors, the narrow primitive table `convertFromSpecificToPrimitive`, the
cross-package resolver `parseFieldSelectorExpr`, the classifier
`getPropertyName` and the array sub-resolution `getArrayPropertyName`.

Conventions of the embedding.

* A Go `error` is its message (`GoError`); a Go result pair `(v, err)` is a
  Lean pair whose second component is `none` for `nil`.
* A Go map is a lookup function into `Option` (`none`: the key is absent); a
  lookup in a missing inner map of `TypeDefinitions` is a miss, as in Go.
* Pointers are never nil: a registered `*dst.TypeSpec` is a `TypeSpec`, an
  expression is a node.
* The parser is mutable state in Go; here every function returns the parser it
  leaves behind, together with the list of `ParseDefinition` invocations it
  made (`Ret`).
* An index expression that can fail at run time makes the function return
  `none`.
* What `property.go` calls but does not define is collected in `Env`:
  `strings.ToUpper`, the two `fmt` renderings of a node, `TransToValidSchemeType`
  and the effect of `Parser.ParseDefinition`.
-/

namespace Swag

/-! ## Syntax trees (`github.com/dave/dst`) -/

mutual
/-- Expression nodes of `dst`. The six shapes `property.go` tests for are
`Ident`, `StarExpr`, `ArrayType`, `MapType`, `StructType`, `InterfaceType`;
the other constructors are the remaining type expressions of the grammar and
`OtherExpr` for every further node kind (literals, calls, operators). -/
inductive Expr : Type
  /-- Identifier `Name`; `Path` is the import path of the package it comes
  from, empty for a local identifier. -/
  | Ident (Name : String) (Path : String)
  | StarExpr (X : Expr)
  /-- Array or slice type; `Len` is the text of the length expression, `none`
  for a slice. -/
  | ArrayType (Len : Option String) (Elt : Expr)
  | MapType (Key : Expr) (Value : Expr)
  | StructType (Fields : FieldList)
  | InterfaceType (Methods : FieldList)
  | FuncType (Params : FieldList) (Results : FieldList)
  | ChanType (Dir : Nat) (Value : Expr)
  | SelectorExpr (X : Expr) (Sel : String)
  | ParenExpr (X : Expr)
  | Ellipsis (Elt : Expr)
  | OtherExpr (kind : String)
/-- Field lists of struct, interface and function types. -/
inductive FieldList : Type
  | nil
  | cons (Names : List String) (Type_ : Expr) (rest : FieldList)
end

/-- Type declaration `type Name Type` (`dst.TypeSpec`). -/
structure TypeSpec where
  Name : String
  Type_ : Expr

/-! ## Descriptors and errors -/

/-- A Go error value, identified with its message. -/
abbrev GoError := String

/-- The error `ErrFailedConvertPrimitiveType` (property.go:11). -/
def ErrFailedConvertPrimitiveType : GoError :=
  "swag property: failed convert primitive type"

/-- The descriptor `propertyName` (property.go:13). -/
structure propertyName where
  SchemaType : String
  ArrayType : String
  CrossPkg : String
deriving DecidableEq, Repr

/-- The zero value `propertyName{}`. -/
def propertyName.zero : propertyName := ⟨"", "", ""⟩

/-- Constructor `newArrayProperty` (property.go:21). -/
def newArrayProperty (schemeType : String) (crossPkg : String) : propertyName :=
  { SchemaType := "array", ArrayType := schemeType, CrossPkg := crossPkg }

/-- Constructor `newProperty` (property.go:29). -/
def newProperty (schemeType : String) (crossPkg : String) : propertyName :=
  { SchemaType := schemeType, ArrayType := "string", CrossPkg := crossPkg }

/-! ## Parser context -/

/-- The two fields of `Parser` that `property.go` reads; the rest of the
parser is neither read nor written by `property.go`. -/
structure Parser where
  /-- The registry `map[string]map[string]*dst.TypeSpec`: package, then type name. -/
  TypeDefinitions : String → String → Option TypeSpec
  /-- The override map `map[string]string`. -/
  CustomPrimitiveTypes : String → Option String

/-- One `ParseDefinition` invocation: `(pkgName, typeName, typeSpec)`. -/
abbrev Call := String × String × TypeSpec

/-- Outcome of a call: the returned value, the parser after the call and the
`ParseDefinition` invocations made during the call, oldest first. -/
structure Ret (α : Type) where
  val : α
  parser : Parser
  calls : List Call

/-- What `property.go` uses and does not define. -/
structure Env where
  /-- Go `strings.ToUpper`. -/
  ToUpper : String → String
  /-- The text of a node under `fmt.Sprintf("%v", ·)`, also `fmt.Sprint(·)`. -/
  Sprint : Expr → String
  /-- The text of a node under `fmt.Sprintf("%s", ·)`. -/
  Sprintf_s : Expr → String
  /-- The function `TransToValidSchemeType` of the package (not in property.go). -/
  TransToValidSchemeType : String → String
  /-- The effect of `parser.ParseDefinition(pkgName, typeName, typeSpec)` on
  the parser; the call is taken to return, its result is discarded by the
  caller. -/
  ParseDefinition : Parser → String → String → TypeSpec → Parser

/-! ## `strings.Split` -/

/-- Go `strings.Split(s, "/")`: the pieces of `s` between the occurrences of
`/`; one piece more than there are separators. -/
def strings_Split_slash (s : String) : List String :=
  (s.toList.splitOn '/').map String.mk

/-! ## The functions of `property.go` -/

/-- The function `convertFromSpecificToPrimitive` (property.go:37). -/
def convertFromSpecificToPrimitive (env : Env) (typeName : String) : String × Option GoError :=
  let typeName := env.ToUpper typeName
  if typeName = "TIME" ∨ typeName = "OBJECTID" ∨ typeName = "UUID" then
    ("string", none)
  else if typeName = "DECIMAL" then
    ("number", none)
  else
    ("", some ErrFailedConvertPrimitiveType)

/-- Lines 59-63 of `parseFieldSelectorExpr`: the registered declaration is a
qualified identifier whose name the narrow table converts; the result is the
converted primitive. -/
def aliasedPrimitive (env : Env) (typeDefinitions : TypeSpec) : Option String :=
  match typeDefinitions.Type_ with
  | .Ident name path =>
    if path ≠ "" then
      match convertFromSpecificToPrimitive env name with
      | (primitiveType, none) => some primitiveType
      | (_, some _) => none
    else none
  | _ => none

/-- The function `parseFieldSelectorExpr` (property.go:48) on the identifier
`Name`, `Path`. `none`: the index `pathParts[len(pathParts)-1]` is out of
range. -/
def parseFieldSelectorExpr (env : Env) (Name : String) (Path : String) (parser : Parser)
    (propertyNewFunc : String → String → propertyName) : Option (Ret propertyName) :=
  let pathParts := strings_Split_slash Path
  match pathParts.getLast? with
  | none => none
  | some pkgName =>
    let typeName := Name
    match convertFromSpecificToPrimitive env typeName with
    | (primitiveType, none) => some ⟨propertyNewFunc primitiveType "", parser, []⟩
    | (_, some _) =>
      if pkgName ≠ "" then
        match parser.TypeDefinitions pkgName typeName with
        | some typeDefinitions =>
          match aliasedPrimitive env typeDefinitions with
          | some primitiveType => some ⟨propertyNewFunc primitiveType "", parser, []⟩
          | none =>
            some ⟨propertyNewFunc typeName pkgName,
                  env.ParseDefinition parser pkgName typeName typeDefinitions,
                  [(pkgName, typeName, typeDefinitions)]⟩
        | none =>
          match parser.CustomPrimitiveTypes typeName with
          | some actualPrimitiveType =>
            some ⟨{ SchemaType := actualPrimitiveType, ArrayType := actualPrimitiveType,
                    CrossPkg := "" }, parser, []⟩
          | none => some ⟨{ SchemaType := "string", ArrayType := "string", CrossPkg := "" }, parser, []⟩
      else
        some ⟨{ SchemaType := "string", ArrayType := "string", CrossPkg := "" }, parser, []⟩

/-- Lines 131-135 of `getArrayPropertyName`: the generic path. -/
def genericArrayProperty (env : Env) (Elt : Expr) (parser : Parser) : propertyName :=
  let itemTypeName := env.TransToValidSchemeType (env.Sprintf_s Elt)
  let itemTypeName :=
    match parser.CustomPrimitiveTypes itemTypeName with
    | some actualPrimitiveType => actualPrimitiveType
    | none => itemTypeName
  { SchemaType := "array", ArrayType := itemTypeName, CrossPkg := "" }

/-- The function `getArrayPropertyName` (property.go:118) on the array type
with length `Len` and element `Elt`. -/
def getArrayPropertyName (env : Env) (_Len : Option String) (Elt : Expr) (parser : Parser) :
    Option (Ret propertyName) :=
  match Elt with
  | .Ident name path =>
    if path ≠ "" then
      parseFieldSelectorExpr env name path parser newArrayProperty
    else
      some ⟨genericArrayProperty env Elt parser, parser, []⟩
  | .StarExpr (.Ident name path) =>
    if path ≠ "" then
      parseFieldSelectorExpr env name path parser newArrayProperty
    else
      some ⟨{ SchemaType := "array", ArrayType := env.TransToValidSchemeType name, CrossPkg := "" },
            parser, []⟩
  | _ => some ⟨genericArrayProperty env Elt parser, parser, []⟩

/-- The test `expr.(*dst.Ident)` with `Path != ""` (property.go:77): the
name and path of a qualified identifier. -/
def qualifiedIdent (expr : Expr) : Option (String × String) :=
  match expr with
  | .Ident name path => if path ≠ "" then some (name, path) else none
  | _ => none

/-- The result type of `getPropertyName`: the pair `(propertyName, error)`
with the parser left behind and the invocations made. -/
abbrev PropertyResult := Ret (propertyName × Option GoError)

/-- The body of `getPropertyName` (property.go:76-116), rule by rule in the
order of the source. `pointee` is the value of the recursive call
`getPropertyName(ptr.X, parser)` of line 94, consulted only when `expr` is a
`StarExpr`. -/
def getPropertyNameBody (env : Env) (expr : Expr) (parser : Parser)
    (pointee : Option PropertyResult) : Option PropertyResult :=
  match qualifiedIdent expr with
  | some (name, path) =>
    (parseFieldSelectorExpr env name path parser newProperty).map
      fun r => ⟨(r.val, none), r.parser, r.calls⟩
  | none =>
    -- check if it is a custom type
    let typeName := env.Sprint expr
    match parser.CustomPrimitiveTypes typeName with
    | some actualPrimitiveType =>
      some ⟨({ SchemaType := actualPrimitiveType, ArrayType := actualPrimitiveType,
               CrossPkg := "" }, none), parser, []⟩
    | none =>
      match expr with
      | .Ident name _ =>
        let schemeType := env.TransToValidSchemeType name
        some ⟨({ SchemaType := schemeType, ArrayType := schemeType, CrossPkg := "" }, none),
              parser, []⟩
      | .StarExpr _ => pointee
      | .ArrayType Len Elt =>
        match Elt with
        | .StructType _ =>
          some ⟨({ SchemaType := "array", ArrayType := "object", CrossPkg := "" }, none),
                parser, []⟩
        | _ =>
          (getArrayPropertyName env Len Elt parser).map
            fun r => ⟨(r.val, none), r.parser, r.calls⟩
      | .MapType _ _ =>
        some ⟨({ SchemaType := "object", ArrayType := "object", CrossPkg := "" }, none),
              parser, []⟩
      | .StructType _ =>
        some ⟨({ SchemaType := "object", ArrayType := "object", CrossPkg := "" }, none),
              parser, []⟩
      | .InterfaceType _ =>
        some ⟨({ SchemaType := "object", ArrayType := "object", CrossPkg := "" }, none),
              parser, []⟩
      | _ => some ⟨(propertyName.zero, some ("not supported" ++ env.Sprint expr)), parser, []⟩

/-- The function `getPropertyName` (property.go:76): its body, with the
recursive call on the pointee of a `StarExpr`. -/
def getPropertyName (env : Env) (expr : Expr) (parser : Parser) : Option PropertyResult :=
  match expr with
  | .StarExpr X => getPropertyNameBody env (.StarExpr X) parser (getPropertyName env X parser)
  | expr => getPropertyNameBody env expr parser none

/-! ## The spec's tables and vocabulary -/

/-- The narrow primitive table in the spec's words: `TIME -> string`,
`OBJECTID -> string`, `UUID -> string`, `DECIMAL -> number`. -/
def narrowPrimitiveTable : List (String × String) :=
  [("TIME", "string"), ("OBJECTID", "string"), ("UUID", "string"), ("DECIMAL", "number")]

/-- The fixed vocabulary of schema types. -/
def vocabulary : List String :=
  ["array", "boolean", "integer", "null", "number", "object", "string"]

/-- The short package name of an import path: the last element of
`strings.Split(Path, "/")`, `none` if the list were empty. -/
def shortPkgName (Path : String) : Option String :=
  (strings_Split_slash Path).getLast?

/-- The expression `e` under `n` levels of `StarExpr`. -/
def wrapStar : Nat → Expr → Expr
  | 0, e => e
  | n + 1, e => .StarExpr (wrapStar n e)

/-- The shapes `getPropertyName` tests for: identifier, pointer, array or
slice, map, struct literal, interface type. -/
def inFixedSet : Expr → Bool
  | .Ident _ _ => true
  | .StarExpr _ => true
  | .ArrayType _ _ => true
  | .MapType _ _ => true
  | .StructType _ => true
  | .InterfaceType _ => true
  | _ => false

/-- An identifier, array or slice, map, struct literal or interface type under
any number of pointers. -/
def resolvable : Expr → Bool
  | .StarExpr X => resolvable X
  | .Ident _ _ => true
  | .ArrayType _ _ => true
  | .MapType _ _ => true
  | .StructType _ => true
  | .InterfaceType _ => true
  | _ => false

/-- A run of `n` successive calls `getPropertyName(expr, parser)` on one
parser: each call starts from the parser the previous call left, and the
`ParseDefinition` invocations of the calls are collected in order. -/
def getPropertyNameRepeat (env : Env) (expr : Expr) : Nat → Parser → Option (Ret Unit)
  | 0, parser => some ⟨(), parser, []⟩
  | n + 1, parser =>
    match getPropertyName env expr parser with
    | none => none
    | some r =>
      match getPropertyNameRepeat env expr n r.parser with
      | none => none
      | some rest => some ⟨(), rest.parser, r.calls ++ rest.calls⟩

/-- The outcomes of `getPropertyName`, one disjunct for each rule of the
source that returns. -/
def IsOutcome (env : Env) (parser : Parser) (expr : Expr) (r : PropertyResult) : Prop :=
  (∃ name path r0, path ≠ "" ∧
      parseFieldSelectorExpr env name path parser newProperty = some r0 ∧
      r = ⟨(r0.val, none), r0.parser, r0.calls⟩) ∨
  (∃ k v, parser.CustomPrimitiveTypes k = some v ∧ r = ⟨(⟨v, v, ""⟩, none), parser, []⟩) ∨
  (∃ name, r = ⟨(⟨env.TransToValidSchemeType name, env.TransToValidSchemeType name, ""⟩,
      none), parser, []⟩) ∨
  r = ⟨(⟨"array", "object", ""⟩, none), parser, []⟩ ∨
  (∃ Len Elt r0, getArrayPropertyName env Len Elt parser = some r0 ∧
      r = ⟨(r0.val, none), r0.parser, r0.calls⟩) ∨
  r = ⟨(⟨"object", "object", ""⟩, none), parser, []⟩ ∨
  (resolvable expr = false ∧
    ∃ e, r = ⟨(propertyName.zero, some ("not supported" ++ env.Sprint e)), parser, []⟩)

/-- The qualified identifier that `getArrayPropertyName` hands to the
resolver (property.go:119-125): the element itself, or the pointee of the
element, when that is an identifier with a non-empty path. -/
def elementQualified : Expr → Option (String × String)
  | .Ident name path => if path ≠ "" then some (name, path) else none
  | .StarExpr (.Ident name path) => if path ≠ "" then some (name, path) else none
  | _ => none

/-- The qualified identifier a call `getPropertyName(expr, parser)` reaches:
the expression itself, or the one under pointers none of whose texts is an
override key, or the element (possibly under one pointer) of an array that is
reached in this way, whose text is not an override key and whose element is
not a struct literal. -/
def reachedQualified (env : Env) (parser : Parser) : Expr → Option (String × String)
  | .Ident name path => if path ≠ "" then some (name, path) else none
  | .StarExpr X =>
    if (parser.CustomPrimitiveTypes (env.Sprint (.StarExpr X))).isSome then none
    else reachedQualified env parser X
  | .ArrayType Len Elt =>
    if (parser.CustomPrimitiveTypes (env.Sprint (.ArrayType Len Elt))).isSome then none
    else elementQualified Elt
  | _ => none

/-- The condition under which the resolver invokes `ParseDefinition` on the
qualified identifier `name`, `path`, and the arguments `c` of the invocation:
the name is not in the narrow table, the short package name is non-empty, the
registry has the pair, and the registered declaration is not a qualified
identifier with a narrow-primitive name. -/
def Invokes (env : Env) (parser : Parser) (name path : String) (c : Call) : Prop :=
  env.ToUpper name ∉ ["TIME", "OBJECTID", "UUID", "DECIMAL"] ∧
    shortPkgName path = some c.1 ∧ c.1 ≠ "" ∧ c.2.1 = name ∧
    parser.TypeDefinitions c.1 name = some c.2.2 ∧
    ∀ n q, c.2.2.Type_ = .Ident n q → q ≠ "" →
      env.ToUpper n ∉ ["TIME", "OBJECTID", "UUID", "DECIMAL"]

/-- Modelled from the spec: `TransToValidSchemeType`, which property.go calls
and does not define. In the spec it normalizes a name through a fixed
primitive-name table, case-insensitively, and unknown names fall back to
`"string"`. The spec does not list the table: `table` holds its entries, keyed
by upper-cased name. -/
def specTransToValidSchemeType (toUpper : String → String) (table : List (String × String))
    (typeName : String) : String :=
  match table.lookup (toUpper typeName) with
  | some schemeType => schemeType
  | none => "string"

/-! ## An example environment -/

/-- Upper-casing of the ASCII letters; Go `strings.ToUpper` agrees with it on
ASCII text. -/
def asciiToUpper (s : String) : String :=
  String.mk (s.toList.map Char.toUpper)

/-- Modelled from the spec: `TransToValidSchemeType`, which property.go calls
and does not define. The spec gives its policy, a fixed primitive-name table
read case-insensitively with unknown names falling back to `"string"`, and
not the entries; the entries of this example are the basic types of Go, each
sent to its schema type. -/
def exampleTrans (typeName : String) : String :=
  let n := asciiToUpper typeName
  if n ∈ ["UINT", "INT", "UINT8", "INT8", "UINT16", "INT16", "BYTE", "UINT32", "INT32",
      "RUNE", "UINT64", "INT64"] then "integer"
  else if n ∈ ["FLOAT32", "FLOAT64"] then "number"
  else if n = "BOOL" then "boolean"
  else "string"

/-- A rendering of nodes for the examples. An identifier prints as its name,
after the path and a dot when it is qualified. Every other node is a pointer
to a struct, which `fmt` prints as `&` and the fields between braces; the
fields are abbreviated here to the Go syntax of the node. The examples use
only that a node has some text and that an identifier prints as its name. -/
def exampleSprint : Expr → String
  | .Ident name path => if path = "" then name else path ++ "." ++ name
  | .StarExpr X => "&\x7b*" ++ exampleSprint X ++ "\x7d"
  | .ArrayType Len Elt => "&\x7b[" ++ Len.getD "" ++ "]" ++ exampleSprint Elt ++ "\x7d"
  | .MapType Key Value => "&\x7bmap[" ++ exampleSprint Key ++ "]" ++ exampleSprint Value ++ "\x7d"
  | .StructType _ => "&\x7bstruct\x7d"
  | .InterfaceType _ => "&\x7binterface\x7d"
  | .FuncType _ _ => "&\x7bfunc\x7d"
  | .ChanType _ Value => "&\x7bchan " ++ exampleSprint Value ++ "\x7d"
  | .SelectorExpr X Sel => "&\x7b" ++ exampleSprint X ++ "." ++ Sel ++ "\x7d"
  | .ParenExpr X => "&\x7b(" ++ exampleSprint X ++ ")\x7d"
  | .Ellipsis Elt => "&\x7b..." ++ exampleSprint Elt ++ "\x7d"
  | .OtherExpr kind => "&\x7b" ++ kind ++ "\x7d"

/-- The example environment: ASCII upper-casing, the example rendering for
both verbs, the example table, and a `ParseDefinition` that leaves the two
maps of the parser as they are. -/
def exampleEnv : Env :=
  { ToUpper := asciiToUpper
    Sprint := exampleSprint
    Sprintf_s := exampleSprint
    TransToValidSchemeType := exampleTrans
    ParseDefinition := fun parser _ _ _ => parser }

/-- The declaration `type Widget struct{}`. -/
def widgetSpec : TypeSpec := { Name := "Widget", Type_ := .StructType .nil }

/-- A parser whose registry holds `Widget` in package `pkg` and whose override
map is empty. -/
def widgetParser : Parser :=
  { TypeDefinitions := fun pkgName typeName =>
      if pkgName = "pkg" ∧ typeName = "Widget" then some widgetSpec else none
    CustomPrimitiveTypes := fun _ => none }

/-- A parser with an empty registry and an empty override map. -/
def emptyParser : Parser :=
  { TypeDefinitions := fun _ _ => none
    CustomPrimitiveTypes := fun _ => none }

/-- A parser with an empty registry whose override map has the one entry
`key -> value`. -/
def overrideParser (key : String) (value : String) : Parser :=
  { TypeDefinitions := fun _ _ => none
    CustomPrimitiveTypes := fun k => if k = key then some value else none }

/-- The example environment with `TransToValidSchemeType` as the spec words it,
over a table of two entries. -/
def specEnv : Env :=
  { exampleEnv with
    TransToValidSchemeType :=
      specTransToValidSchemeType asciiToUpper [("INT", "integer"), ("BOOL", "boolean")] }

/-- The qualified identifier `decimal.Decimal` of a decimal library. -/
def decimalIdent : Expr := .Ident "Decimal" "github.com/shopspring/decimal"

/-- A parser whose registry holds, in package `models`, the declarations
`type Price decimal.Decimal`, `type Time decimal.Decimal` and `type Stamp Time`
(the last one an alias of a local type), and whose override map is empty. -/
def aliasParser : Parser :=
  { TypeDefinitions := fun pkgName typeName =>
      if pkgName = "models" ∧ typeName = "Price" then some ⟨"Price", decimalIdent⟩
      else if pkgName = "models" ∧ typeName = "Time" then some ⟨"Time", decimalIdent⟩
      else if pkgName = "models" ∧ typeName = "Stamp" then some ⟨"Stamp", .Ident "Time" ""⟩
      else none
    CustomPrimitiveTypes := fun _ => none }

/-- A parser with an empty registry whose override map has the two entries
`key1 -> value1` and `key2 -> value2`. -/
def twoOverrideParser (key1 value1 key2 value2 : String) : Parser :=
  { TypeDefinitions := fun _ _ => none
    CustomPrimitiveTypes := fun k =>
      if k = key1 then some value1 else if k = key2 then some value2 else none }

/-! ## Auxiliary facts -/

/-- Splitting a path on `/` never gives the empty list. -/
theorem strings_Split_slash_ne_nil (s : String) : strings_Split_slash s ≠ [] := by
  unfold strings_Split_slash
  intro h
  exact List.splitOnP_ne_nil _ _ (List.map_eq_nil_iff.mp h)

/-- The index `pathParts[len(pathParts)-1]` is in range for every path. -/
theorem shortPkgName_isSome (Path : String) : ∃ pkgName, shortPkgName Path = some pkgName :=
  ⟨_, List.getLast?_eq_getLast _ (strings_Split_slash_ne_nil Path)⟩

/-- The body of `parseFieldSelectorExpr` once the last path segment is known. -/
theorem parseFieldSelectorExpr_of_shortPkgName (env : Env) (Name Path pkgName : String)
    (parser : Parser) (propertyNewFunc : String → String → propertyName)
    (hpkg : shortPkgName Path = some pkgName) :
    parseFieldSelectorExpr env Name Path parser propertyNewFunc =
      match convertFromSpecificToPrimitive env Name with
      | (primitiveType, none) => some ⟨propertyNewFunc primitiveType "", parser, []⟩
      | (_, some _) =>
        if pkgName ≠ "" then
          match parser.TypeDefinitions pkgName Name with
          | some typeDefinitions =>
            match aliasedPrimitive env typeDefinitions with
            | some primitiveType => some ⟨propertyNewFunc primitiveType "", parser, []⟩
            | none =>
              some ⟨propertyNewFunc Name pkgName,
                    env.ParseDefinition parser pkgName Name typeDefinitions,
                    [(pkgName, Name, typeDefinitions)]⟩
          | none =>
            match parser.CustomPrimitiveTypes Name with
            | some actualPrimitiveType =>
              some ⟨⟨actualPrimitiveType, actualPrimitiveType, ""⟩, parser, []⟩
            | none => some ⟨⟨"string", "string", ""⟩, parser, []⟩
        else
          some ⟨⟨"string", "string", ""⟩, parser, []⟩ := by
  unfold shortPkgName at hpkg
  unfold parseFieldSelectorExpr
  simp only [hpkg]

/-- One unfolding of `getPropertyName`: the rules of the source in their order,
the recursive call in place. -/
theorem getPropertyName_eq (env : Env) (expr : Expr) (parser : Parser) :
    getPropertyName env expr parser =
      match qualifiedIdent expr with
      | some (name, path) =>
        (parseFieldSelectorExpr env name path parser newProperty).map
          fun r => ⟨(r.val, none), r.parser, r.calls⟩
      | none =>
        match parser.CustomPrimitiveTypes (env.Sprint expr) with
        | some actualPrimitiveType =>
          some ⟨(⟨actualPrimitiveType, actualPrimitiveType, ""⟩, none), parser, []⟩
        | none =>
          match expr with
          | .Ident name _ =>
            some ⟨(⟨env.TransToValidSchemeType name, env.TransToValidSchemeType name, ""⟩, none),
                  parser, []⟩
          | .StarExpr X => getPropertyName env X parser
          | .ArrayType Len Elt =>
            match Elt with
            | .StructType _ => some ⟨(⟨"array", "object", ""⟩, none), parser, []⟩
            | _ =>
              (getArrayPropertyName env Len Elt parser).map
                fun r => ⟨(r.val, none), r.parser, r.calls⟩
          | .MapType _ _ => some ⟨(⟨"object", "object", ""⟩, none), parser, []⟩
          | .StructType _ => some ⟨(⟨"object", "object", ""⟩, none), parser, []⟩
          | .InterfaceType _ => some ⟨(⟨"object", "object", ""⟩, none), parser, []⟩
          | _ => some ⟨(propertyName.zero, some ("not supported" ++ env.Sprint expr)), parser, []⟩ := by
  cases expr <;> rfl

/-- Rule 1 (property.go:77): a qualified identifier goes to the resolver with
the scalar constructor. -/
theorem getPropertyName_qualified (env : Env) (name path : String) (parser : Parser)
    (hpath : path ≠ "") :
    getPropertyName env (.Ident name path) parser =
      (parseFieldSelectorExpr env name path parser newProperty).map
        fun r => ⟨(r.val, none), r.parser, r.calls⟩ := by
  rw [getPropertyName_eq]
  simp [qualifiedIdent, hpath]

/-- Rule 2 (property.go:82-85): an expression that is not a qualified
identifier and whose text is an override key resolves to the override. -/
theorem getPropertyName_override (env : Env) (expr : Expr) (parser : Parser) (v : String)
    (hq : qualifiedIdent expr = none)
    (hkey : parser.CustomPrimitiveTypes (env.Sprint expr) = some v) :
    getPropertyName env expr parser = some ⟨(⟨v, v, ""⟩, none), parser, []⟩ := by
  rw [getPropertyName_eq]
  simp [hq, hkey]

/-- Rule 4 (property.go:93-95): a pointer whose text is not an override key
resolves as its pointee. -/
theorem getPropertyName_star (env : Env) (X : Expr) (parser : Parser)
    (hkey : parser.CustomPrimitiveTypes (env.Sprint (.StarExpr X)) = none) :
    getPropertyName env (.StarExpr X) parser = getPropertyName env X parser := by
  rw [getPropertyName_eq]
  simp [qualifiedIdent, hkey]

/-- A successful conversion yields `"string"` or `"number"`. -/
theorem convertFromSpecificToPrimitive_ok (env : Env) (s primitiveType : String)
    (h : convertFromSpecificToPrimitive env s = (primitiveType, none)) :
    primitiveType = "string" ∨ primitiveType = "number" := by
  unfold convertFromSpecificToPrimitive at h
  simp only at h
  split_ifs at h <;> simp_all

/-- What the resolver takes for an alias of a primitive is `"string"` or
`"number"`. -/
theorem aliasedPrimitive_ok (env : Env) (typeDefinitions : TypeSpec) (primitiveType : String)
    (h : aliasedPrimitive env typeDefinitions = some primitiveType) :
    primitiveType = "string" ∨ primitiveType = "number" := by
  unfold aliasedPrimitive at h
  split at h
  · split_ifs at h
    split at h
    · rename_i heq
      simp only [Option.some.injEq] at h
      subst h
      exact convertFromSpecificToPrimitive_ok env _ _ heq
    · simp at h
  · simp at h

/-- Every outcome of `parseFieldSelectorExpr`: it returns, and what it returns
is the constructor on a narrow primitive, or the constructor on the registered
type after one `ParseDefinition` invocation, or an override value, or the
`"string"` fallback. -/
theorem parseFieldSelectorExpr_outcomes (env : Env) (Name Path : String) (parser : Parser)
    (propertyNewFunc : String → String → propertyName) :
    ∃ pkgName r, shortPkgName Path = some pkgName ∧
      parseFieldSelectorExpr env Name Path parser propertyNewFunc = some r ∧
      ((∃ primitiveType, (primitiveType = "string" ∨ primitiveType = "number") ∧
          r.val = propertyNewFunc primitiveType "" ∧ r.parser = parser ∧ r.calls = []) ∨
       (∃ typeDefinitions, pkgName ≠ "" ∧
          parser.TypeDefinitions pkgName Name = some typeDefinitions ∧
          r.val = propertyNewFunc Name pkgName ∧
          r.parser = env.ParseDefinition parser pkgName Name typeDefinitions ∧
          r.calls = [(pkgName, Name, typeDefinitions)]) ∨
       (∃ v, parser.CustomPrimitiveTypes Name = some v ∧ r.val = ⟨v, v, ""⟩ ∧
          r.parser = parser ∧ r.calls = []) ∨
       (r.val = ⟨"string", "string", ""⟩ ∧ r.parser = parser ∧ r.calls = [])) := by
  obtain ⟨pkgName, hpkg⟩ := shortPkgName_isSome Path
  refine ⟨pkgName, ?_⟩
  rw [parseFieldSelectorExpr_of_shortPkgName env Name Path pkgName parser propertyNewFunc hpkg]
  split
  · rename_i primitiveType heq
    exact ⟨_, hpkg, rfl, Or.inl ⟨primitiveType,
      convertFromSpecificToPrimitive_ok env _ _ heq, rfl, rfl, rfl⟩⟩
  · split_ifs with hne
    · split
      · rename_i typeDefinitions htd
        split
        · rename_i primitiveType hal
          exact ⟨_, hpkg, rfl, Or.inl ⟨primitiveType,
            aliasedPrimitive_ok env _ _ hal, rfl, rfl, rfl⟩⟩
        · exact ⟨_, hpkg, rfl, Or.inr (Or.inl ⟨typeDefinitions, hne, htd, rfl, rfl, rfl⟩)⟩
      · split
        · rename_i v hv
          exact ⟨_, hpkg, rfl, Or.inr (Or.inr (Or.inl ⟨v, hv, rfl, rfl, rfl⟩))⟩
        · exact ⟨_, hpkg, rfl, Or.inr (Or.inr (Or.inr ⟨rfl, rfl, rfl⟩))⟩
    · exact ⟨_, hpkg, rfl, Or.inr (Or.inr (Or.inr ⟨rfl, rfl, rfl⟩))⟩

/-- Induction along pointer indirection: a property of all expressions follows
from its passing through `StarExpr` and holding of every node that is not a
`StarExpr`. -/
theorem Expr.star_induction {P : Expr → Prop} (hstar : ∀ X, P X → P (.StarExpr X))
    (hbase : ∀ e, (∀ X, e ≠ .StarExpr X) → P e) : ∀ e, P e
  | .StarExpr X => hstar X (Expr.star_induction hstar hbase X)
  | .Ident _ _ => hbase _ (fun _ h => by cases h)
  | .ArrayType _ _ => hbase _ (fun _ h => by cases h)
  | .MapType _ _ => hbase _ (fun _ h => by cases h)
  | .StructType _ => hbase _ (fun _ h => by cases h)
  | .InterfaceType _ => hbase _ (fun _ h => by cases h)
  | .FuncType _ _ => hbase _ (fun _ h => by cases h)
  | .ChanType _ _ => hbase _ (fun _ h => by cases h)
  | .SelectorExpr _ _ => hbase _ (fun _ h => by cases h)
  | .ParenExpr _ => hbase _ (fun _ h => by cases h)
  | .Ellipsis _ => hbase _ (fun _ h => by cases h)
  | .OtherExpr _ => hbase _ (fun _ h => by cases h)

/-- Every outcome of `getArrayPropertyName`: it returns, and what it returns
is the resolver's result under the array constructor, or an array whose
element type is a `TransToValidSchemeType` value or an override value. -/
theorem getArrayPropertyName_outcomes (env : Env) (Len : Option String) (Elt : Expr)
    (parser : Parser) :
    ∃ r, getArrayPropertyName env Len Elt parser = some r ∧
      ((∃ name path, path ≠ "" ∧
          parseFieldSelectorExpr env name path parser newArrayProperty = some r) ∨
       (∃ a, r.val = ⟨"array", a, ""⟩ ∧ r.parser = parser ∧ r.calls = [] ∧
          ((∃ t, a = env.TransToValidSchemeType t) ∨
            ∃ k, parser.CustomPrimitiveTypes k = some a))) := by
  have hgen : ∃ a, (genericArrayProperty env Elt parser) = ⟨"array", a, ""⟩ ∧
      ((∃ t, a = env.TransToValidSchemeType t) ∨ ∃ k, parser.CustomPrimitiveTypes k = some a) := by
    simp only [genericArrayProperty]
    cases hk : parser.CustomPrimitiveTypes (env.TransToValidSchemeType (env.Sprintf_s Elt)) with
    | none => exact ⟨_, rfl, Or.inl ⟨_, rfl⟩⟩
    | some v => exact ⟨v, rfl, Or.inr ⟨_, hk⟩⟩
  obtain ⟨a, ha, hcase⟩ := hgen
  unfold getArrayPropertyName
  split
  · rename_i name path
    split_ifs with hpath
    · obtain ⟨_, r, _, hr, _⟩ :=
        parseFieldSelectorExpr_outcomes env name path parser newArrayProperty
      exact ⟨r, hr, Or.inl ⟨name, path, hpath, hr⟩⟩
    · exact ⟨_, rfl, Or.inr ⟨a, ha, rfl, rfl, hcase⟩⟩
  · rename_i name path
    split_ifs with hpath
    · obtain ⟨_, r, _, hr, _⟩ :=
        parseFieldSelectorExpr_outcomes env name path parser newArrayProperty
      exact ⟨r, hr, Or.inl ⟨name, path, hpath, hr⟩⟩
    · exact ⟨_, rfl, Or.inr ⟨_, rfl, rfl, rfl, Or.inl ⟨_, rfl⟩⟩⟩
  · exact ⟨_, rfl, Or.inr ⟨a, ha, rfl, rfl, hcase⟩⟩

/-- The function `getPropertyName` returns on every input, with one of the
outcomes of `IsOutcome`. -/
theorem getPropertyName_outcomes (env : Env) (parser : Parser) (expr : Expr) :
    ∃ r, getPropertyName env expr parser = some r ∧ IsOutcome env parser expr r := by
  induction expr using Expr.star_induction with
  | hstar X ih =>
    cases hkey : parser.CustomPrimitiveTypes (env.Sprint (.StarExpr X)) with
    | some v =>
      exact ⟨_, getPropertyName_override env _ parser v rfl hkey, Or.inr (Or.inl ⟨_, v, hkey, rfl⟩)⟩
    | none =>
      rw [getPropertyName_star env X parser hkey]
      exact ih
  | hbase e hne =>
    cases hq : qualifiedIdent e with
    | some np =>
      cases e with
      | Ident name path =>
        have hpath : path ≠ "" := by
          intro h
          simp [qualifiedIdent, h] at hq
        obtain ⟨_, r0, _, hr0, _⟩ :=
          parseFieldSelectorExpr_outcomes env name path parser newProperty
        refine ⟨⟨(r0.val, none), r0.parser, r0.calls⟩, ?_,
          Or.inl ⟨name, path, r0, hpath, hr0, rfl⟩⟩
        rw [getPropertyName_qualified env name path parser hpath, hr0]
        rfl
      | _ => simp [qualifiedIdent] at hq
    | none =>
      cases hkey : parser.CustomPrimitiveTypes (env.Sprint e) with
      | some v =>
        exact ⟨_, getPropertyName_override env _ parser v hq hkey,
          Or.inr (Or.inl ⟨_, v, hkey, rfl⟩)⟩
      | none =>
        rw [getPropertyName_eq]
        simp only [hq, hkey]
        cases e with
        | StarExpr X => exact absurd rfl (hne X)
        | Ident name path => exact ⟨_, rfl, Or.inr (Or.inr (Or.inl ⟨name, rfl⟩))⟩
        | ArrayType Len Elt =>
          obtain ⟨r0, hr0, _⟩ := getArrayPropertyName_outcomes env Len Elt parser
          cases Elt <;>
            first
              | exact ⟨_, rfl, Or.inr (Or.inr (Or.inr (Or.inl rfl)))⟩
              | (simp only [hr0, Option.map_some']
                 exact ⟨_, rfl, Or.inr (Or.inr (Or.inr (Or.inr (Or.inl ⟨_, _, r0, hr0, rfl⟩))))⟩)
        | MapType _ _ => exact ⟨_, rfl, Or.inr (Or.inr (Or.inr (Or.inr (Or.inr (Or.inl rfl)))))⟩
        | StructType _ => exact ⟨_, rfl, Or.inr (Or.inr (Or.inr (Or.inr (Or.inr (Or.inl rfl)))))⟩
        | InterfaceType _ =>
          exact ⟨_, rfl, Or.inr (Or.inr (Or.inr (Or.inr (Or.inr (Or.inl rfl)))))⟩
        | FuncType _ _ =>
          exact ⟨_, rfl, Or.inr (Or.inr (Or.inr (Or.inr (Or.inr (Or.inr ⟨rfl, ⟨_, rfl⟩⟩)))))⟩
        | ChanType _ _ =>
          exact ⟨_, rfl, Or.inr (Or.inr (Or.inr (Or.inr (Or.inr (Or.inr ⟨rfl, ⟨_, rfl⟩⟩)))))⟩
        | SelectorExpr _ _ =>
          exact ⟨_, rfl, Or.inr (Or.inr (Or.inr (Or.inr (Or.inr (Or.inr ⟨rfl, ⟨_, rfl⟩⟩)))))⟩
        | ParenExpr _ =>
          exact ⟨_, rfl, Or.inr (Or.inr (Or.inr (Or.inr (Or.inr (Or.inr ⟨rfl, ⟨_, rfl⟩⟩)))))⟩
        | Ellipsis _ =>
          exact ⟨_, rfl, Or.inr (Or.inr (Or.inr (Or.inr (Or.inr (Or.inr ⟨rfl, ⟨_, rfl⟩⟩)))))⟩
        | OtherExpr _ =>
          exact ⟨_, rfl, Or.inr (Or.inr (Or.inr (Or.inr (Or.inr (Or.inr ⟨rfl, ⟨_, rfl⟩⟩)))))⟩

/-- A name whose upper-casing is none of the four table keys fails to convert. -/
theorem convertFromSpecificToPrimitive_of_not_narrow (env : Env) (s : String)
    (h : env.ToUpper s ∉ ["TIME", "OBJECTID", "UUID", "DECIMAL"]) :
    convertFromSpecificToPrimitive env s = ("", some ErrFailedConvertPrimitiveType) := by
  unfold convertFromSpecificToPrimitive
  simp only [List.mem_cons, List.mem_singleton, List.not_mem_nil, or_false, not_or] at h
  simp [h.1, h.2.1, h.2.2.1, h.2.2.2]

/-- A declaration that is not a qualified identifier with a narrow-primitive
name is not taken for an alias of a primitive. -/
theorem aliasedPrimitive_eq_none (env : Env) (typeDefinitions : TypeSpec)
    (h : ∀ name path, typeDefinitions.Type_ = .Ident name path → path ≠ "" →
      env.ToUpper name ∉ ["TIME", "OBJECTID", "UUID", "DECIMAL"]) :
    aliasedPrimitive env typeDefinitions = none := by
  unfold aliasedPrimitive
  split
  · rename_i name path heq
    split_ifs with hpath
    · rw [convertFromSpecificToPrimitive_of_not_narrow env name (h name path heq hpath)]
    · rfl
  · rfl

/-- The resolver on a registered type that is not an alias of a primitive. -/
theorem parseFieldSelectorExpr_registered (env : Env) (Name Path pkgName : String)
    (parser : Parser) (typeDefinitions : TypeSpec)
    (propertyNewFunc : String → String → propertyName)
    (hnarrow : env.ToUpper Name ∉ ["TIME", "OBJECTID", "UUID", "DECIMAL"])
    (hpkg : shortPkgName Path = some pkgName) (hne : pkgName ≠ "")
    (htd : parser.TypeDefinitions pkgName Name = some typeDefinitions)
    (hgenuine : ∀ name path, typeDefinitions.Type_ = .Ident name path → path ≠ "" →
      env.ToUpper name ∉ ["TIME", "OBJECTID", "UUID", "DECIMAL"]) :
    parseFieldSelectorExpr env Name Path parser propertyNewFunc =
      some ⟨propertyNewFunc Name pkgName,
            env.ParseDefinition parser pkgName Name typeDefinitions,
            [(pkgName, Name, typeDefinitions)]⟩ := by
  rw [parseFieldSelectorExpr_of_shortPkgName env Name Path pkgName parser propertyNewFunc hpkg,
    convertFromSpecificToPrimitive_of_not_narrow env Name hnarrow]
  simp [hne, htd, aliasedPrimitive_eq_none env typeDefinitions hgenuine]

/-- The example table yields only vocabulary members. -/
theorem exampleTrans_mem_vocabulary (s : String) : exampleTrans s ∈ vocabulary := by
  unfold exampleTrans
  simp only
  split_ifs <;> decide

/-! ## C1: the narrow primitive table -/

/-- C1: `convertFromSpecificToPrimitive` is the narrow primitive table. For
every string, the result is the table entry of the upper-cased string with no
error when there is one, and the empty string with
`ErrFailedConvertPrimitiveType` otherwise; entry by entry, `TIME`, `OBJECTID`
and `UUID` give `"string"` and `DECIMAL` gives `"number"`; it fails exactly
when the upper-cased string is none of the four. -/
theorem convertFromSpecificToPrimitive_eq_table (env : Env) (s : String) :
    convertFromSpecificToPrimitive env s =
        (match narrowPrimitiveTable.lookup (env.ToUpper s) with
         | some primitiveType => (primitiveType, none)
         | none => ("", some ErrFailedConvertPrimitiveType)) ∧
      convertFromSpecificToPrimitive env s =
        (if env.ToUpper s = "TIME" ∨ env.ToUpper s = "OBJECTID" ∨ env.ToUpper s = "UUID" then
           ("string", none)
         else if env.ToUpper s = "DECIMAL" then ("number", none)
         else ("", some ErrFailedConvertPrimitiveType)) ∧
      ((convertFromSpecificToPrimitive env s).2 ≠ none ↔
        env.ToUpper s ∉ ["TIME", "OBJECTID", "UUID", "DECIMAL"]) := by
  unfold convertFromSpecificToPrimitive
  generalize env.ToUpper s = u
  by_cases h1 : u = "TIME"
  · subst h1; decide
  by_cases h2 : u = "OBJECTID"
  · subst h2; decide
  by_cases h3 : u = "UUID"
  · subst h3; decide
  by_cases h4 : u = "DECIMAL"
  · subst h4; decide
  have hb1 : (u == "TIME") = false := by simpa using h1
  have hb2 : (u == "OBJECTID") = false := by simpa using h2
  have hb3 : (u == "UUID") = false := by simpa using h3
  have hb4 : (u == "DECIMAL") = false := by simpa using h4
  simp [narrowPrimitiveTable, List.lookup, h1, h2, h3, h4, hb1, hb2, hb3, hb4]

/-! ## C2, C3: the vocabulary of the descriptor -/

/-- C2, the code at the failing input: for the qualified identifier `Widget`
of `example.com/pkg`, registered in `TypeDefinitions` as a struct, with an
empty override map, `getPropertyName` returns without error
`SchemaType = "Widget"` (the result of `newProperty(typeName, pkgName)`,
property.go:65), which is none of the allowed values `array`, `boolean`,
`integer`, `null`, `number`, `object`, `string` that the docstring of
`getPropertyName` (property.go:74-75) lists. -/
theorem getPropertyName_SchemaType_not_in_vocabulary :
    (getPropertyName exampleEnv (.Ident "Widget" "example.com/pkg") widgetParser).map
        (fun r => r.val) = some (⟨"Widget", "string", "pkg"⟩, none) ∧
      "Widget" ∉ vocabulary ∧
      widgetParser.TypeDefinitions "pkg" "Widget" = some widgetSpec ∧
      widgetParser.CustomPrimitiveTypes = fun _ => none :=
  ⟨by decide, by decide, rfl, rfl⟩

/-- Where the `SchemaType` that `getPropertyName` returns comes from: when
`getPropertyName` returns without error, and `TransToValidSchemeType` yields
only vocabulary members, the returned `SchemaType` is a member of the fixed
vocabulary, or a value of the `CustomPrimitiveTypes` override map, or the name
of a type that `TypeDefinitions` registers under the package named by the
returned `CrossPkg`, which is then non-empty. -/
theorem getPropertyName_SchemaType (env : Env) (expr : Expr) (parser : Parser)
    (r : PropertyResult) (hT : ∀ s, env.TransToValidSchemeType s ∈ vocabulary)
    (hret : getPropertyName env expr parser = some r) (hnoerr : r.val.2 = none) :
    r.val.1.SchemaType ∈ vocabulary ∨
      (∃ k, parser.CustomPrimitiveTypes k = some r.val.1.SchemaType) ∨
      (r.val.1.CrossPkg ≠ "" ∧
        (parser.TypeDefinitions r.val.1.CrossPkg r.val.1.SchemaType).isSome) := by
  obtain ⟨r1, hr1, hout⟩ := getPropertyName_outcomes env parser expr
  rw [hret] at hr1
  obtain rfl : r = r1 := Option.some.inj hr1
  rcases hout with ⟨name, path, r0, _, hr0, rfl⟩ | ⟨k, v, hk, rfl⟩ | ⟨name, rfl⟩ | rfl |
    ⟨Len, Elt, r0, hr0, rfl⟩ | rfl | ⟨_, e, rfl⟩
  · obtain ⟨pkgName, r2, _, hr2, hcase⟩ :=
      parseFieldSelectorExpr_outcomes env name path parser newProperty
    rw [hr0] at hr2
    obtain rfl : r0 = r2 := Option.some.inj hr2
    rcases hcase with ⟨prim, hprim, hval, _, _⟩ | ⟨td, hne, htd, hval, _, _⟩ |
      ⟨v, hv, hval, _, _⟩ | ⟨hval, _, _⟩
    · rcases hprim with rfl | rfl <;> simp [hval, newProperty, vocabulary]
    · exact Or.inr (Or.inr (by simp [hval, newProperty, hne, htd]))
    · exact Or.inr (Or.inl ⟨name, by simp [hval, hv]⟩)
    · simp [hval, vocabulary]
  · exact Or.inr (Or.inl ⟨k, hk⟩)
  · exact Or.inl (hT name)
  · simp [vocabulary]
  · obtain ⟨r2, hr2, hcase⟩ := getArrayPropertyName_outcomes env Len Elt parser
    rw [hr0] at hr2
    obtain rfl : r0 = r2 := Option.some.inj hr2
    rcases hcase with ⟨name, path, _, hpfs⟩ | ⟨a, hval, _, _, _⟩
    · obtain ⟨pkgName, r3, _, hr3, hcase⟩ :=
        parseFieldSelectorExpr_outcomes env name path parser newArrayProperty
      rw [hpfs] at hr3
      obtain rfl : r0 = r3 := Option.some.inj hr3
      rcases hcase with ⟨prim, _, hval, _, _⟩ | ⟨td, _, _, hval, _, _⟩ |
        ⟨v, hv, hval, _, _⟩ | ⟨hval, _, _⟩
      · simp [hval, newArrayProperty, vocabulary]
      · simp [hval, newArrayProperty, vocabulary]
      · exact Or.inr (Or.inl ⟨name, by simp [hval, hv]⟩)
      · simp [hval, vocabulary]
    · simp [hval, vocabulary]
  · simp [vocabulary]
  · simp at hnoerr

/-- C3, counterexample: the slice of the qualified identifier `pkg.Widget`,
registered as a struct, resolves without error to `ArrayType = "Widget"`,
which is not in the fixed vocabulary, while the override map is empty. -/
theorem getPropertyName_ArrayType_not_in_vocabulary :
    (getPropertyName exampleEnv (.ArrayType none (.Ident "Widget" "example.com/pkg"))
        widgetParser).map (fun r => r.val) = some (⟨"array", "Widget", "pkg"⟩, none) ∧
      "Widget" ∉ vocabulary ∧
      widgetParser.CustomPrimitiveTypes = fun _ => none := by
  refine ⟨by decide, by decide, rfl⟩

/-- C3 (amended): whenever `getPropertyName` returns without error, and
`TransToValidSchemeType` yields only vocabulary members, the returned
`ArrayType` is a member of the fixed vocabulary, or a value of the
`CustomPrimitiveTypes` override map, or, in a descriptor with
`SchemaType = "array"`, the name of a type that `TypeDefinitions` registers
under the package named by the returned `CrossPkg`, which is then non-empty. -/
theorem getPropertyName_ArrayType (env : Env) (expr : Expr) (parser : Parser)
    (r : PropertyResult) (hT : ∀ s, env.TransToValidSchemeType s ∈ vocabulary)
    (hret : getPropertyName env expr parser = some r) (hnoerr : r.val.2 = none) :
    r.val.1.ArrayType ∈ vocabulary ∨
      (∃ k, parser.CustomPrimitiveTypes k = some r.val.1.ArrayType) ∨
      (r.val.1.SchemaType = "array" ∧ r.val.1.CrossPkg ≠ "" ∧
        (parser.TypeDefinitions r.val.1.CrossPkg r.val.1.ArrayType).isSome) := by
  obtain ⟨r1, hr1, hout⟩ := getPropertyName_outcomes env parser expr
  rw [hret] at hr1
  obtain rfl : r = r1 := Option.some.inj hr1
  rcases hout with ⟨name, path, r0, _, hr0, rfl⟩ | ⟨k, v, hk, rfl⟩ | ⟨name, rfl⟩ | rfl |
    ⟨Len, Elt, r0, hr0, rfl⟩ | rfl | ⟨_, e, rfl⟩
  · obtain ⟨pkgName, r2, _, hr2, hcase⟩ :=
      parseFieldSelectorExpr_outcomes env name path parser newProperty
    rw [hr0] at hr2
    obtain rfl : r0 = r2 := Option.some.inj hr2
    rcases hcase with ⟨prim, _, hval, _, _⟩ | ⟨td, _, _, hval, _, _⟩ |
      ⟨v, hv, hval, _, _⟩ | ⟨hval, _, _⟩
    · simp [hval, newProperty, vocabulary]
    · simp [hval, newProperty, vocabulary]
    · exact Or.inr (Or.inl ⟨name, by simp [hval, hv]⟩)
    · simp [hval, vocabulary]
  · exact Or.inr (Or.inl ⟨k, hk⟩)
  · exact Or.inl (hT name)
  · simp [vocabulary]
  · obtain ⟨r2, hr2, hcase⟩ := getArrayPropertyName_outcomes env Len Elt parser
    rw [hr0] at hr2
    obtain rfl : r0 = r2 := Option.some.inj hr2
    rcases hcase with ⟨name, path, _, hpfs⟩ | ⟨a, hval, _, _, ha⟩
    · obtain ⟨pkgName, r3, _, hr3, hcase⟩ :=
        parseFieldSelectorExpr_outcomes env name path parser newArrayProperty
      rw [hpfs] at hr3
      obtain rfl : r0 = r3 := Option.some.inj hr3
      rcases hcase with ⟨prim, hprim, hval, _, _⟩ | ⟨td, hne, htd, hval, _, _⟩ |
        ⟨v, hv, hval, _, _⟩ | ⟨hval, _, _⟩
      · rcases hprim with rfl | rfl <;> simp [hval, newArrayProperty, vocabulary]
      · exact Or.inr (Or.inr (by simp [hval, newArrayProperty, hne, htd]))
      · exact Or.inr (Or.inl ⟨name, by simp [hval, hv]⟩)
      · simp [hval, vocabulary]
    · rcases ha with ⟨t, rfl⟩ | ⟨k, hk⟩
      · exact Or.inl (by simpa [hval] using hT t)
      · exact Or.inr (Or.inl ⟨k, by simpa [hval] using hk⟩)
  · simp [vocabulary]
  · simp at hnoerr

/-- C3, witness: the amended invariant at the slice of the registered
`pkg.Widget`. -/
theorem getPropertyName_ArrayType_witness :
    "Widget" ∈ vocabulary ∨ (∃ k, widgetParser.CustomPrimitiveTypes k = some "Widget") ∨
      ("array" = "array" ∧ "pkg" ≠ "" ∧ (widgetParser.TypeDefinitions "pkg" "Widget").isSome) :=
  getPropertyName_ArrayType exampleEnv (.ArrayType none (.Ident "Widget" "example.com/pkg"))
    widgetParser
    ⟨(⟨"array", "Widget", "pkg"⟩, none), widgetParser, [("pkg", "Widget", widgetSpec)]⟩
    exampleTrans_mem_vocabulary (by rfl) (by rfl)

/-! ## C4: pointer indirection -/

/-- C4, counterexample: with the text of the pointer node `*int` as a key of
the override map, `getPropertyName` answers the override for `*int` and the
table value for `int`. -/
theorem getPropertyName_pointer_not_transparent :
    (getPropertyName exampleEnv (wrapStar 1 (.Ident "int" ""))
        (overrideParser (exampleEnv.Sprint (.StarExpr (.Ident "int" ""))) "number")).map
        (fun r => r.val) = some (⟨"number", "number", ""⟩, none) ∧
      (getPropertyName exampleEnv (.Ident "int" "")
        (overrideParser (exampleEnv.Sprint (.StarExpr (.Ident "int" ""))) "number")).map
        (fun r => r.val) = some (⟨"integer", "integer", ""⟩, none) := by
  decide

/-- C4 (amended): for every expression `e`, parser and `n`, when the text of
none of the pointer nodes around `e` (one to `n` levels of `StarExpr`) is a key
of `CustomPrimitiveTypes`, `getPropertyName` on `e` under `n` levels of
`StarExpr` returns what it returns on `e`: the same descriptor, error, parser
and invocations. -/
theorem getPropertyName_wrapStar (env : Env) (e : Expr) (parser : Parser) (n : Nat)
    (hkeys : ∀ k, k < n → parser.CustomPrimitiveTypes (env.Sprint (wrapStar (k + 1) e)) = none) :
    getPropertyName env (wrapStar n e) parser = getPropertyName env e parser := by
  induction n with
  | zero => rfl
  | succ m ih =>
    have hm : parser.CustomPrimitiveTypes (env.Sprint (.StarExpr (wrapStar m e))) = none :=
      hkeys m (Nat.lt_succ_self m)
    show getPropertyName env (.StarExpr (wrapStar m e)) parser = _
    rw [getPropertyName_star env (wrapStar m e) parser hm]
    exact ih (fun k hk => hkeys k (Nat.lt_succ_of_lt hk))

/-- C4, witness: two pointers around the overridden identifier `int`. -/
theorem getPropertyName_wrapStar_witness :
    (∀ k, k < 2 → (overrideParser "int" "number").CustomPrimitiveTypes
        (exampleEnv.Sprint (wrapStar (k + 1) (.Ident "int" ""))) = none) ∧
      getPropertyName exampleEnv (wrapStar 2 (.Ident "int" "")) (overrideParser "int" "number") =
        getPropertyName exampleEnv (.Ident "int" "") (overrideParser "int" "number") :=
  ⟨by decide, getPropertyName_wrapStar exampleEnv (.Ident "int" "")
    (overrideParser "int" "number") 2 (by decide)⟩

/-! ## C5, C6: registered types and `ParseDefinition` -/

/-- C5: a qualified identifier whose name is not in the narrow table, whose
short package name is non-empty and whose `(package, name)` entry of
`TypeDefinitions` is a declaration that is not a qualified identifier with a
narrow-primitive name: `getPropertyName` returns without error the descriptor
with `SchemaType` the type name, `ArrayType` `"string"` and `CrossPkg` the short
package name, and makes exactly one `ParseDefinition` invocation, with
arguments (short package name, type name, that declaration). -/
theorem getPropertyName_registered (env : Env) (name path pkgName : String) (parser : Parser)
    (typeDefinitions : TypeSpec) (hpath : path ≠ "")
    (hnarrow : env.ToUpper name ∉ ["TIME", "OBJECTID", "UUID", "DECIMAL"])
    (hpkg : shortPkgName path = some pkgName) (hne : pkgName ≠ "")
    (htd : parser.TypeDefinitions pkgName name = some typeDefinitions)
    (hgenuine : ∀ n q, typeDefinitions.Type_ = .Ident n q → q ≠ "" →
      env.ToUpper n ∉ ["TIME", "OBJECTID", "UUID", "DECIMAL"]) :
    getPropertyName env (.Ident name path) parser =
      some ⟨(⟨name, "string", pkgName⟩, none),
            env.ParseDefinition parser pkgName name typeDefinitions,
            [(pkgName, name, typeDefinitions)]⟩ := by
  rw [getPropertyName_qualified env name path parser hpath,
    parseFieldSelectorExpr_registered env name path pkgName parser typeDefinitions newProperty
      hnarrow hpkg hne htd hgenuine]
  rfl

/-- C5, witness: `("pkg", "Widget")` with `Widget` a plain struct gives
`SchemaType = "Widget"`, `CrossPkg = "pkg"` and the one invocation for
`("pkg", "Widget")`. -/
theorem getPropertyName_registered_witness :
    getPropertyName exampleEnv (.Ident "Widget" "pkg") widgetParser =
      some ⟨(⟨"Widget", "string", "pkg"⟩, none),
            exampleEnv.ParseDefinition widgetParser "pkg" "Widget" widgetSpec,
            [("pkg", "Widget", widgetSpec)]⟩ :=
  getPropertyName_registered exampleEnv "Widget" "pkg" "pkg" widgetParser widgetSpec
    (by decide) (by decide) (by decide) (by decide) (by rfl)
    (fun n q h => by cases h)

/-- C6, counterexample: resolving `pkg.Widget` twice in one run makes two
`ParseDefinition` invocations for `("pkg", "Widget")`, not one. -/
theorem getPropertyNameRepeat_two_invocations :
    (getPropertyNameRepeat exampleEnv (.Ident "Widget" "pkg") 2 widgetParser).map
        (fun r => r.calls.map (fun c => (c.1, c.2.1))) =
      some [("pkg", "Widget"), ("pkg", "Widget")] := by
  decide

/-- C6 (amended): every `getPropertyName` call that resolves a qualified
identifier referencing a genuine structured type makes one `ParseDefinition`
invocation for its `(package, name)` pair; so in a run of `n` such calls, in
which `ParseDefinition` leaves the registry entry of the pair in place, the
invocations for the pair are exactly `n`, all with the same arguments. -/
theorem getPropertyNameRepeat_invocations (env : Env) (name path pkgName : String)
    (typeDefinitions : TypeSpec) (hpath : path ≠ "")
    (hnarrow : env.ToUpper name ∉ ["TIME", "OBJECTID", "UUID", "DECIMAL"])
    (hpkg : shortPkgName path = some pkgName) (hne : pkgName ≠ "")
    (hgenuine : ∀ n q, typeDefinitions.Type_ = .Ident n q → q ≠ "" →
      env.ToUpper n ∉ ["TIME", "OBJECTID", "UUID", "DECIMAL"])
    (hkeep : ∀ q a b t, (env.ParseDefinition q a b t).TypeDefinitions pkgName name =
      q.TypeDefinitions pkgName name)
    (n : Nat) (parser : Parser)
    (htd : parser.TypeDefinitions pkgName name = some typeDefinitions) :
    ∃ parserAfter, getPropertyNameRepeat env (.Ident name path) n parser =
      some ⟨(), parserAfter, List.replicate n (pkgName, name, typeDefinitions)⟩ := by
  induction n generalizing parser with
  | zero => exact ⟨parser, rfl⟩
  | succ m ih =>
    obtain ⟨parserAfter, hrest⟩ :=
      ih (env.ParseDefinition parser pkgName name typeDefinitions) (by rw [hkeep]; exact htd)
    refine ⟨parserAfter, ?_⟩
    simp only [getPropertyNameRepeat]
    rw [getPropertyName_qualified env name path parser hpath,
      parseFieldSelectorExpr_registered env name path pkgName parser typeDefinitions newProperty
        hnarrow hpkg hne htd hgenuine]
    simp only [Option.map_some', hrest]
    rfl

/-- C6, witness: three resolutions of `pkg.Widget` make three invocations. -/
theorem getPropertyNameRepeat_invocations_witness :
    ∃ parserAfter, getPropertyNameRepeat exampleEnv (.Ident "Widget" "pkg") 3 widgetParser =
      some ⟨(), parserAfter, List.replicate 3 ("pkg", "Widget", widgetSpec)⟩ :=
  getPropertyNameRepeat_invocations exampleEnv "Widget" "pkg" "pkg" widgetSpec
    (by decide) (by decide) (by decide) (by decide) (fun n q h => by cases h)
    (fun _ _ _ _ => rfl) 3 widgetParser (by rfl)

/-! ## C7: unresolved qualified identifiers -/

/-- C7, counterexample: the qualified identifier `decimal.Decimal`, absent from
the registry and from the override map, resolves to `SchemaType = "number"`. -/
theorem getPropertyName_unresolved_Decimal :
    (getPropertyName exampleEnv (.Ident "Decimal" "github.com/shopspring/decimal")
        emptyParser).map (fun r => r.val) = some (⟨"number", "string", ""⟩, none) ∧
      emptyParser.TypeDefinitions "decimal" "Decimal" = none ∧
      emptyParser.CustomPrimitiveTypes "Decimal" = none :=
  ⟨by decide, rfl, rfl⟩

/-- C7 (amended): a qualified identifier whose upper-cased name is not
`DECIMAL`, whose `(short package, name)` is not in `TypeDefinitions` and whose
name is not a key of `CustomPrimitiveTypes`: `getPropertyName` returns without
error exactly `SchemaType = "string"`, `ArrayType = "string"`, empty
`CrossPkg`, with the parser unchanged and no invocation. -/
theorem getPropertyName_unresolved (env : Env) (name path : String) (parser : Parser)
    (hpath : path ≠ "") (hdecimal : env.ToUpper name ≠ "DECIMAL")
    (hreg : ∀ pkgName, shortPkgName path = some pkgName →
      parser.TypeDefinitions pkgName name = none)
    (hover : parser.CustomPrimitiveTypes name = none) :
    getPropertyName env (.Ident name path) parser =
      some ⟨(⟨"string", "string", ""⟩, none), parser, []⟩ := by
  obtain ⟨pkgName, hpkg⟩ := shortPkgName_isSome path
  rw [getPropertyName_qualified env name path parser hpath,
    parseFieldSelectorExpr_of_shortPkgName env name path pkgName parser newProperty hpkg]
  unfold convertFromSpecificToPrimitive
  simp only [hdecimal, if_false]
  split_ifs <;> simp [hreg pkgName hpkg, hover, newProperty]

/-- C7, witness: `other.Thing` with an empty registry and override map. -/
theorem getPropertyName_unresolved_witness :
    getPropertyName exampleEnv (.Ident "Thing" "example.com/other") emptyParser =
      some ⟨(⟨"string", "string", ""⟩, none), emptyParser, []⟩ :=
  getPropertyName_unresolved exampleEnv "Thing" "example.com/other" emptyParser
    (by decide) (by decide) (fun _ _ => rfl) rfl

/-! ## C8, C9: the one error -/

/-- C8, counterexample: a function type whose text is a key of the override
map resolves without error to the override, not to the unsupported-shape
error. -/
theorem getPropertyName_FuncType_override :
    inFixedSet (.FuncType .nil .nil) = false ∧
      (getPropertyName exampleEnv (.FuncType .nil .nil)
        (overrideParser (exampleEnv.Sprint (.FuncType .nil .nil)) "string")).map
        (fun r => r.val) = some (⟨"string", "string", ""⟩, none) := by
  decide

/-- C8 (amended): for every expression whose shape is outside the fixed set
(not an identifier, pointer, array or slice, map, struct literal or interface
type) and whose text is not a key of `CustomPrimitiveTypes`, `getPropertyName`
returns the zero descriptor with an error whose message is `"not supported"`
followed by the text of the expression; the parser is unchanged and no
invocation is made. -/
theorem getPropertyName_unsupported (env : Env) (expr : Expr) (parser : Parser)
    (hshape : inFixedSet expr = false)
    (hkey : parser.CustomPrimitiveTypes (env.Sprint expr) = none) :
    getPropertyName env expr parser =
      some ⟨(propertyName.zero, some ("not supported" ++ env.Sprint expr)), parser, []⟩ := by
  rw [getPropertyName_eq]
  cases expr <;> simp [inFixedSet] at hshape <;> simp [qualifiedIdent, hkey]

/-- C8, witness: a function type under an empty override map. -/
theorem getPropertyName_unsupported_witness :
    getPropertyName exampleEnv (.FuncType .nil .nil) emptyParser =
      some ⟨(propertyName.zero,
              some ("not supported" ++ exampleEnv.Sprint (.FuncType .nil .nil))),
            emptyParser, []⟩ :=
  getPropertyName_unsupported exampleEnv (.FuncType .nil .nil) emptyParser (by decide) rfl

/-- C9: for every expression that is an identifier (qualified or bare), an
array or slice, a map, a struct literal or an interface type under any number
of pointers, and for every parser, `getPropertyName` returns a descriptor and
no error; `parseFieldSelectorExpr` and `getArrayPropertyName` return a
descriptor on every input. -/
theorem getPropertyName_no_error (env : Env) (expr : Expr) (parser : Parser)
    (name path : String) (propertyNewFunc : String → String → propertyName)
    (Len : Option String) (Elt : Expr) (hshape : resolvable expr = true) :
    (∃ r, getPropertyName env expr parser = some r ∧ r.val.2 = none) ∧
      (∃ r, parseFieldSelectorExpr env name path parser propertyNewFunc = some r) ∧
      (∃ r, getArrayPropertyName env Len Elt parser = some r) := by
  refine ⟨?_, ?_, ?_⟩
  · obtain ⟨r, hr, hout⟩ := getPropertyName_outcomes env parser expr
    refine ⟨r, hr, ?_⟩
    rcases hout with ⟨_, _, _, _, _, rfl⟩ | ⟨_, _, _, rfl⟩ | ⟨_, rfl⟩ | rfl |
      ⟨_, _, _, _, rfl⟩ | rfl | ⟨hno, _, rfl⟩ <;> try rfl
    rw [hshape] at hno
    cases hno
  · obtain ⟨_, r, _, hr, _⟩ :=
      parseFieldSelectorExpr_outcomes env name path parser propertyNewFunc
    exact ⟨r, hr⟩
  · obtain ⟨r, hr, _⟩ := getArrayPropertyName_outcomes env Len Elt parser
    exact ⟨r, hr⟩

/-- C9, witness: a pointer to a pointer to a slice of maps, with the resolver
and the array path at `pkg.Widget` and a slice of `int`. -/
theorem getPropertyName_no_error_witness :
    (∃ r, getPropertyName exampleEnv
        (wrapStar 2 (.ArrayType none (.MapType (.Ident "string" "") (.Ident "int" ""))))
        widgetParser = some r ∧ r.val.2 = none) ∧
      (∃ r, parseFieldSelectorExpr exampleEnv "Widget" "pkg" widgetParser newProperty = some r) ∧
      (∃ r, getArrayPropertyName exampleEnv none (.Ident "int" "") widgetParser = some r) :=
  getPropertyName_no_error exampleEnv
    (wrapStar 2 (.ArrayType none (.MapType (.Ident "string" "") (.Ident "int" ""))))
    widgetParser "Widget" "pkg" newProperty none (.Ident "int" "") (by decide)

/-! ## C10: arrays of struct literals -/

/-- C10, counterexample: a slice of struct literals whose text is a key of the
override map resolves to the override, not to an array of objects. -/
theorem getPropertyName_struct_array_override :
    (getPropertyName exampleEnv (.ArrayType none (.StructType .nil))
        (overrideParser (exampleEnv.Sprint (.ArrayType none (.StructType .nil))) "string")).map
        (fun r => r.val) = some (⟨"string", "string", ""⟩, none) := by
  decide

/-- C10 (amended): for every array or slice expression whose element type is a
struct literal, whatever the fields of the struct, and every parser in which
the text of the array expression is not a key of `CustomPrimitiveTypes`,
`getPropertyName` returns without error exactly `SchemaType = "array"`,
`ArrayType = "object"`, empty `CrossPkg`, with the parser unchanged and no
invocation. -/
theorem getPropertyName_struct_array (env : Env) (Len : Option String) (Fields : FieldList)
    (parser : Parser)
    (hkey : parser.CustomPrimitiveTypes (env.Sprint (.ArrayType Len (.StructType Fields))) =
      none) :
    getPropertyName env (.ArrayType Len (.StructType Fields)) parser =
      some ⟨(⟨"array", "object", ""⟩, none), parser, []⟩ := by
  rw [getPropertyName_eq]
  simp [qualifiedIdent, hkey]

/-- C10, witness: a slice of a struct with one field under an empty override
map. -/
theorem getPropertyName_struct_array_witness :
    getPropertyName exampleEnv
        (.ArrayType none (.StructType (.cons ["ID"] (.Ident "int" "") .nil))) emptyParser =
      some ⟨(⟨"array", "object", ""⟩, none), emptyParser, []⟩ :=
  getPropertyName_struct_array exampleEnv none (.cons ["ID"] (.Ident "int" "") .nil)
    emptyParser rfl

/-! ## C11: maps, struct literals and interface types -/

/-- C11, counterexample: a map type whose text is a key of the override map
resolves to the override, not to an object. -/
theorem getPropertyName_MapType_override :
    (getPropertyName exampleEnv (.MapType (.Ident "string" "") (.Ident "int" ""))
        (overrideParser (exampleEnv.Sprint (.MapType (.Ident "string" "") (.Ident "int" "")))
          "string")).map (fun r => r.val) = some (⟨"string", "string", ""⟩, none) := by
  decide

/-- C11 (amended): for every map type, struct literal and interface type
expression, and every parser in which the text of the expression is not a key
of `CustomPrimitiveTypes`, `getPropertyName` returns without error exactly
`SchemaType = "object"`, `ArrayType = "object"`, empty `CrossPkg`, with the
parser unchanged and no invocation: the same descriptor for the three shapes,
whatever the key, value and field types. -/
theorem getPropertyName_object (env : Env) (expr : Expr) (parser : Parser)
    (hshape : (∃ Key Value, expr = .MapType Key Value) ∨ (∃ Fields, expr = .StructType Fields) ∨
      ∃ Methods, expr = .InterfaceType Methods)
    (hkey : parser.CustomPrimitiveTypes (env.Sprint expr) = none) :
    getPropertyName env expr parser =
      some ⟨(⟨"object", "object", ""⟩, none), parser, []⟩ := by
  rw [getPropertyName_eq]
  rcases hshape with ⟨Key, Value, rfl⟩ | ⟨Fields, rfl⟩ | ⟨Methods, rfl⟩ <;>
    simp [qualifiedIdent, hkey]

/-- C11, witness: the map type `map[string]int` under an empty override map. -/
theorem getPropertyName_object_witness :
    getPropertyName exampleEnv (.MapType (.Ident "string" "") (.Ident "int" "")) emptyParser =
      some ⟨(⟨"object", "object", ""⟩, none), emptyParser, []⟩ :=
  getPropertyName_object exampleEnv (.MapType (.Ident "string" "") (.Ident "int" "")) emptyParser
    (Or.inl ⟨_, _, rfl⟩) rfl

/-! ## C12: arrays and slices -/

/-- A failed conversion means that the upper-cased name is none of the four
table keys. -/
theorem convertFromSpecificToPrimitive_error (env : Env) (s p : String) (e : GoError)
    (h : convertFromSpecificToPrimitive env s = (p, some e)) :
    env.ToUpper s ∉ ["TIME", "OBJECTID", "UUID", "DECIMAL"] := by
  unfold convertFromSpecificToPrimitive at h
  simp only at h
  split_ifs at h with h1 h2
  · simp at h
  · simp at h
  · simp only [List.mem_cons, List.mem_singleton, List.not_mem_nil, or_false, not_or]
    simp only [not_or] at h1
    exact ⟨h1.1, h1.2.1, h1.2.2, h2⟩

/-- A successful conversion means that the upper-cased name is one of the four
table keys. -/
theorem convertFromSpecificToPrimitive_ok_mem (env : Env) (s primitiveType : String)
    (h : convertFromSpecificToPrimitive env s = (primitiveType, none)) :
    env.ToUpper s ∈ ["TIME", "OBJECTID", "UUID", "DECIMAL"] := by
  by_contra hnot
  rw [convertFromSpecificToPrimitive_of_not_narrow env s hnot] at h
  simp at h

/-- A declaration that the resolver does not take for an alias of a primitive
is not a qualified identifier with a narrow-primitive name. -/
theorem aliasedPrimitive_none (env : Env) (typeDefinitions : TypeSpec)
    (h : aliasedPrimitive env typeDefinitions = none) :
    ∀ name path, typeDefinitions.Type_ = .Ident name path → path ≠ "" →
      env.ToUpper name ∉ ["TIME", "OBJECTID", "UUID", "DECIMAL"] := by
  intro name path hdecl hpath
  unfold aliasedPrimitive at h
  rw [hdecl] at h
  simp only [hpath, ne_eq, not_false_eq_true, if_true] at h
  split at h
  · simp at h
  · rename_i p e herr
    exact convertFromSpecificToPrimitive_error env name p e herr

/-- A successful conversion returns the narrow-table entry of the upper-cased
name. -/
theorem convertFromSpecificToPrimitive_ok_lookup (env : Env) (s primitiveType : String)
    (h : convertFromSpecificToPrimitive env s = (primitiveType, none)) :
    narrowPrimitiveTable.lookup (env.ToUpper s) = some primitiveType := by
  unfold convertFromSpecificToPrimitive at h
  simp only at h
  generalize env.ToUpper s = u at h
  split_ifs at h with h1 h2
  · obtain rfl : "string" = primitiveType := by simpa using h
    rcases h1 with rfl | rfl | rfl <;> decide
  · obtain rfl : "number" = primitiveType := by simpa using h
    subst h2
    decide
  · simp at h

/-- A declaration that the resolver takes for an alias of a primitive is a
qualified identifier whose name has that primitive as narrow-table entry. -/
theorem aliasedPrimitive_some (env : Env) (typeDefinitions : TypeSpec) (primitiveType : String)
    (h : aliasedPrimitive env typeDefinitions = some primitiveType) :
    ∃ aliasName aliasPath, typeDefinitions.Type_ = .Ident aliasName aliasPath ∧
      aliasPath ≠ "" ∧
      narrowPrimitiveTable.lookup (env.ToUpper aliasName) = some primitiveType := by
  unfold aliasedPrimitive at h
  split at h
  · rename_i aliasName aliasPath hdecl
    split_ifs at h with hpath
    split at h
    · rename_i p hok
      obtain rfl : p = primitiveType := by simpa using h
      exact ⟨aliasName, aliasPath, hdecl, hpath,
        convertFromSpecificToPrimitive_ok_lookup env aliasName p hok⟩
    · simp at h
  · simp at h

/-- The resolver, case by case (property.go:53-71), with the condition and the
exact result of each case: a name of the narrow table; a registered alias of
one; any other registered type; an override of an unregistered name; the
`"string"` fallback. -/
theorem parseFieldSelectorExpr_cases (env : Env) (name path : String) (parser : Parser)
    (propertyNewFunc : String → String → propertyName) :
    ∃ pkgName r, shortPkgName path = some pkgName ∧
      parseFieldSelectorExpr env name path parser propertyNewFunc = some r ∧
      ((∃ primitiveType,
          narrowPrimitiveTable.lookup (env.ToUpper name) = some primitiveType ∧
          r = ⟨propertyNewFunc primitiveType "", parser, []⟩) ∨
        (env.ToUpper name ∉ ["TIME", "OBJECTID", "UUID", "DECIMAL"] ∧ pkgName ≠ "" ∧
          ∃ typeDefinitions aliasName aliasPath primitiveType,
            parser.TypeDefinitions pkgName name = some typeDefinitions ∧
            typeDefinitions.Type_ = .Ident aliasName aliasPath ∧ aliasPath ≠ "" ∧
            narrowPrimitiveTable.lookup (env.ToUpper aliasName) = some primitiveType ∧
            r = ⟨propertyNewFunc primitiveType "", parser, []⟩) ∨
        (env.ToUpper name ∉ ["TIME", "OBJECTID", "UUID", "DECIMAL"] ∧ pkgName ≠ "" ∧
          ∃ typeDefinitions,
            parser.TypeDefinitions pkgName name = some typeDefinitions ∧
            (∀ n q, typeDefinitions.Type_ = .Ident n q → q ≠ "" →
              env.ToUpper n ∉ ["TIME", "OBJECTID", "UUID", "DECIMAL"]) ∧
            r = ⟨propertyNewFunc name pkgName,
                 env.ParseDefinition parser pkgName name typeDefinitions,
                 [(pkgName, name, typeDefinitions)]⟩) ∨
        (env.ToUpper name ∉ ["TIME", "OBJECTID", "UUID", "DECIMAL"] ∧ pkgName ≠ "" ∧
          parser.TypeDefinitions pkgName name = none ∧
          ∃ v, parser.CustomPrimitiveTypes name = some v ∧ r = ⟨⟨v, v, ""⟩, parser, []⟩) ∨
        (env.ToUpper name ∉ ["TIME", "OBJECTID", "UUID", "DECIMAL"] ∧
          (pkgName = "" ∨
            (parser.TypeDefinitions pkgName name = none ∧
              parser.CustomPrimitiveTypes name = none)) ∧
          r = ⟨⟨"string", "string", ""⟩, parser, []⟩)) := by
  obtain ⟨pkgName, hpkg⟩ := shortPkgName_isSome path
  refine ⟨pkgName, ?_⟩
  rw [parseFieldSelectorExpr_of_shortPkgName env name path pkgName parser propertyNewFunc hpkg]
  split
  · rename_i primitiveType hok
    exact ⟨_, hpkg, rfl, Or.inl ⟨primitiveType,
      convertFromSpecificToPrimitive_ok_lookup env name primitiveType hok, rfl⟩⟩
  · rename_i p e herr
    have hnarrow := convertFromSpecificToPrimitive_error env name p e herr
    split_ifs with hne
    · split
      · rename_i typeDefinitions htd
        split
        · rename_i primitiveType halias
          obtain ⟨aliasName, aliasPath, hdecl, hqual, hlook⟩ :=
            aliasedPrimitive_some env typeDefinitions primitiveType halias
          exact ⟨_, hpkg, rfl, Or.inr (Or.inl ⟨hnarrow, hne, typeDefinitions, aliasName,
            aliasPath, primitiveType, htd, hdecl, hqual, hlook, rfl⟩)⟩
        · rename_i halias
          exact ⟨_, hpkg, rfl, Or.inr (Or.inr (Or.inl ⟨hnarrow, hne, typeDefinitions, htd,
            aliasedPrimitive_none env typeDefinitions halias, rfl⟩))⟩
      · rename_i htd
        split
        · rename_i v hv
          exact ⟨_, hpkg, rfl, Or.inr (Or.inr (Or.inr (Or.inl ⟨hnarrow, hne, htd, v, hv, rfl⟩)))⟩
        · rename_i hv
          exact ⟨_, hpkg, rfl, Or.inr (Or.inr (Or.inr (Or.inr
            ⟨hnarrow, Or.inr ⟨htd, hv⟩, rfl⟩)))⟩
    · exact ⟨_, hpkg, rfl, Or.inr (Or.inr (Or.inr (Or.inr
        ⟨hnarrow, Or.inl (by simpa using hne), rfl⟩)))⟩

/-- An element that is a qualified identifier, directly or under one pointer,
goes to the resolver with the array-element constructor (property.go:119-125). -/
theorem getArrayPropertyName_of_elementQualified (env : Env) (Len : Option String) (Elt : Expr)
    (parser : Parser) (name path : String) (h : elementQualified Elt = some (name, path)) :
    getArrayPropertyName env Len Elt parser =
      parseFieldSelectorExpr env name path parser newArrayProperty := by
  unfold elementQualified at h
  split at h
  · rename_i n q
    split_ifs at h with hq
    obtain ⟨rfl, rfl⟩ := Prod.mk.inj (Option.some.inj h)
    simp [getArrayPropertyName, hq]
  · rename_i n q
    split_ifs at h with hq
    obtain ⟨rfl, rfl⟩ := Prod.mk.inj (Option.some.inj h)
    simp [getArrayPropertyName, hq]
  · simp at h

/-- Any other element gives an array descriptor, with the parser unchanged and
no invocation: the table value of the name for a pointer to a bare identifier
(property.go:126-129), the generic path otherwise (property.go:131-135). -/
theorem getArrayPropertyName_of_not_elementQualified (env : Env) (Len : Option String)
    (Elt : Expr) (parser : Parser) (h : elementQualified Elt = none) :
    getArrayPropertyName env Len Elt parser =
      some ⟨(match Elt with
             | .StarExpr (.Ident name _) => ⟨"array", env.TransToValidSchemeType name, ""⟩
             | _ => genericArrayProperty env Elt parser), parser, []⟩ := by
  cases Elt with
  | Ident n q =>
    have hq : q = "" := by
      by_contra hq
      simp [elementQualified, hq] at h
    subst hq
    simp [getArrayPropertyName]
  | StarExpr X =>
    cases X with
    | Ident n q =>
      have hq : q = "" := by
        by_contra hq
        simp [elementQualified, hq] at h
      subst hq
      simp [getArrayPropertyName]
    | _ => rfl
  | _ => rfl

/-- Rule 5 (property.go:97-102): an array whose text is not an override key and
whose element is not a struct literal resolves as `getArrayPropertyName`. -/
theorem getPropertyName_array_eq (env : Env) (Len : Option String) (Elt : Expr)
    (parser : Parser) (hstruct : ∀ Fields, Elt ≠ .StructType Fields)
    (hkey : parser.CustomPrimitiveTypes (env.Sprint (.ArrayType Len Elt)) = none) :
    getPropertyName env (.ArrayType Len Elt) parser =
      (getArrayPropertyName env Len Elt parser).map
        fun r => ⟨(r.val, none), r.parser, r.calls⟩ := by
  rw [getPropertyName_eq]
  simp only [qualifiedIdent, hkey]

/-- C12, counterexample: the slice of the qualified identifier `other.Thing`,
absent from the registry and from the override map, resolves without error to
`SchemaType = "string"`, not `"array"`, its text not being an override key; the
slice of `float64`, whose text is an override key with value `"string"`,
resolves to `SchemaType = "string"`; and the slice of `**int` resolves to
`ArrayType = "string"`, while its element `**int` resolves to `"integer"`. -/
theorem getPropertyName_array_of_unresolved :
    (getPropertyName exampleEnv (.ArrayType none (.Ident "Thing" "example.com/other"))
        emptyParser).map (fun r => r.val) = some (⟨"string", "string", ""⟩, none) ∧
      emptyParser.CustomPrimitiveTypes = (fun _ => none) ∧
      (getPropertyName exampleEnv (.ArrayType none (.Ident "float64" ""))
        (overrideParser (exampleEnv.Sprint (.ArrayType none (.Ident "float64" ""))) "string")).map
        (fun r => r.val) = some (⟨"string", "string", ""⟩, none) ∧
      (getPropertyName exampleEnv (.ArrayType none (wrapStar 2 (.Ident "int" "")))
        emptyParser).map (fun r => r.val) = some (⟨"array", "string", ""⟩, none) ∧
      (getPropertyName exampleEnv (wrapStar 2 (.Ident "int" "")) emptyParser).map
        (fun r => r.val) = some (⟨"integer", "integer", ""⟩, none) :=
  ⟨by decide, rfl, by decide, by decide, by decide⟩

/-- C12 (amended): for every array or slice expression whose element type is
not a struct literal, and every parser in which the text of the array
expression is not a key of `CustomPrimitiveTypes`, `getPropertyName` returns
without error what `getArrayPropertyName` returns, which is, with its parser
and invocations:

* for an element that is a qualified identifier, directly or under one
  pointer, the result of `parseFieldSelectorExpr` with the array-element
  constructor: `SchemaType = "array"` with `ArrayType` the narrow-table value
  when the name is in the narrow table, or when the name is registered (under
  a non-empty short package name) as a qualified identifier with a
  narrow-primitive name; `SchemaType = "array"`, `ArrayType` the type name and
  `CrossPkg` the short package name, after one `ParseDefinition` invocation,
  for any other registered type; the scalar descriptor `{v, v}` when the name
  is unregistered and has the override `v`; the scalar descriptor
  `{"string", "string"}` when the short package name is empty or the name is
  neither registered nor overridden;
* for an element that is a pointer to a bare identifier `n`:
  `SchemaType = "array"`, `ArrayType = TransToValidSchemeType(n)`;
* for any other element, with `t` its text under `%s`: `SchemaType = "array"`,
  `ArrayType` the override of `TransToValidSchemeType(t)` when there is one and
  `TransToValidSchemeType(t)` otherwise. -/
theorem getPropertyName_array (env : Env) (Len : Option String) (Elt : Expr) (parser : Parser)
    (hstruct : ∀ Fields, Elt ≠ .StructType Fields)
    (hkey : parser.CustomPrimitiveTypes (env.Sprint (.ArrayType Len Elt)) = none) :
    ∃ r, getArrayPropertyName env Len Elt parser = some r ∧
      getPropertyName env (.ArrayType Len Elt) parser = some ⟨(r.val, none), r.parser, r.calls⟩ ∧
      (∀ name path, elementQualified Elt = some (name, path) →
        parseFieldSelectorExpr env name path parser newArrayProperty = some r ∧
        ∃ pkgName, shortPkgName path = some pkgName ∧
          ((∃ primitiveType,
              narrowPrimitiveTable.lookup (env.ToUpper name) = some primitiveType ∧
              r = ⟨⟨"array", primitiveType, ""⟩, parser, []⟩) ∨
            (env.ToUpper name ∉ ["TIME", "OBJECTID", "UUID", "DECIMAL"] ∧ pkgName ≠ "" ∧
              ∃ typeDefinitions aliasName aliasPath primitiveType,
                parser.TypeDefinitions pkgName name = some typeDefinitions ∧
                typeDefinitions.Type_ = .Ident aliasName aliasPath ∧ aliasPath ≠ "" ∧
                narrowPrimitiveTable.lookup (env.ToUpper aliasName) = some primitiveType ∧
                r = ⟨⟨"array", primitiveType, ""⟩, parser, []⟩) ∨
            (env.ToUpper name ∉ ["TIME", "OBJECTID", "UUID", "DECIMAL"] ∧ pkgName ≠ "" ∧
              ∃ typeDefinitions,
                parser.TypeDefinitions pkgName name = some typeDefinitions ∧
                (∀ n q, typeDefinitions.Type_ = .Ident n q → q ≠ "" →
                  env.ToUpper n ∉ ["TIME", "OBJECTID", "UUID", "DECIMAL"]) ∧
                r = ⟨⟨"array", name, pkgName⟩,
                     env.ParseDefinition parser pkgName name typeDefinitions,
                     [(pkgName, name, typeDefinitions)]⟩) ∨
            (env.ToUpper name ∉ ["TIME", "OBJECTID", "UUID", "DECIMAL"] ∧ pkgName ≠ "" ∧
              parser.TypeDefinitions pkgName name = none ∧
              ∃ v, parser.CustomPrimitiveTypes name = some v ∧
                r = ⟨⟨v, v, ""⟩, parser, []⟩) ∨
            (env.ToUpper name ∉ ["TIME", "OBJECTID", "UUID", "DECIMAL"] ∧
              (pkgName = "" ∨
                (parser.TypeDefinitions pkgName name = none ∧
                  parser.CustomPrimitiveTypes name = none)) ∧
              r = ⟨⟨"string", "string", ""⟩, parser, []⟩))) ∧
      (∀ n, Elt = .StarExpr (.Ident n "") →
        r = ⟨⟨"array", env.TransToValidSchemeType n, ""⟩, parser, []⟩) ∧
      (elementQualified Elt = none → (∀ n q, Elt ≠ .StarExpr (.Ident n q)) →
        r = ⟨⟨"array",
              (match parser.CustomPrimitiveTypes
                 (env.TransToValidSchemeType (env.Sprintf_s Elt)) with
               | some a => a
               | none => env.TransToValidSchemeType (env.Sprintf_s Elt)), ""⟩,
             parser, []⟩) := by
  rw [getPropertyName_array_eq env Len Elt parser hstruct hkey]
  cases hq : elementQualified Elt with
  | some np =>
    obtain ⟨name, path⟩ := np
    obtain ⟨pkgName, r, hpkg, hr, hcase⟩ :=
      parseFieldSelectorExpr_cases env name path parser newArrayProperty
    rw [getArrayPropertyName_of_elementQualified env Len Elt parser name path hq, hr]
    refine ⟨r, rfl, rfl, ?_, ?_, ?_⟩
    · intro n q hnq
      obtain ⟨rfl, rfl⟩ := Prod.mk.inj (Option.some.inj hnq)
      exact ⟨hr, pkgName, hpkg, hcase⟩
    · intro n hE
      subst hE
      simp [elementQualified] at hq
    · intro h
      cases h
  | none =>
    rw [getArrayPropertyName_of_not_elementQualified env Len Elt parser hq]
    refine ⟨_, rfl, rfl, ?_, ?_, ?_⟩
    · intro n q hnq
      cases hnq
    · intro n hE
      subst hE
      rfl
    · intro _ hstar
      congr 1
      split
      · exact absurd rfl (hstar _ _)
      · rfl

/-- C12, witness: the slice of the bare identifier `float64` resolves to an
array of `"number"`. -/
theorem getPropertyName_array_witness :
    getPropertyName exampleEnv (.ArrayType none (.Ident "float64" "")) emptyParser =
      some ⟨(⟨"array", "number", ""⟩, none), emptyParser, []⟩ := by
  obtain ⟨r, _, hgpn, _, _, hgen⟩ :=
    getPropertyName_array exampleEnv none (.Ident "float64" "") emptyParser
      (fun _ h => by cases h) rfl
  rw [hgpn, hgen rfl (fun _ _ h => by cases h)]
  rfl

/-! ## C13: bare identifiers -/

/-- C13: for every bare identifier (empty `Path`) whose text is not a key of
`CustomPrimitiveTypes`, `getPropertyName` returns without error
`SchemaType = ArrayType = TransToValidSchemeType(name)` with empty `CrossPkg`,
the parser unchanged and no invocation; and when `TransToValidSchemeType` is
the table lookup of the spec and the name is in no entry of the table, the
descriptor is `SchemaType = ArrayType = "string"`. -/
theorem getPropertyName_bare (env : Env) (name : String) (parser : Parser)
    (table : List (String × String))
    (hkey : parser.CustomPrimitiveTypes (env.Sprint (.Ident name "")) = none) :
    getPropertyName env (.Ident name "") parser =
        some ⟨(⟨env.TransToValidSchemeType name, env.TransToValidSchemeType name, ""⟩, none),
              parser, []⟩ ∧
      (env.TransToValidSchemeType = specTransToValidSchemeType env.ToUpper table →
        table.lookup (env.ToUpper name) = none →
        getPropertyName env (.Ident name "") parser =
          some ⟨(⟨"string", "string", ""⟩, none), parser, []⟩) := by
  have hres : getPropertyName env (.Ident name "") parser =
      some ⟨(⟨env.TransToValidSchemeType name, env.TransToValidSchemeType name, ""⟩, none),
            parser, []⟩ := by
    rw [getPropertyName_eq]
    simp [qualifiedIdent, hkey]
  refine ⟨hres, fun hT hmiss => ?_⟩
  have hstring : env.TransToValidSchemeType name = "string" := by
    rw [hT]
    simp [specTransToValidSchemeType, hmiss]
  rw [hres, hstring]

/-- C13, witness: the bare identifier `Widget`, which the table of the example
does not list, resolves to `"string"`. -/
theorem getPropertyName_bare_witness :
    getPropertyName specEnv (.Ident "Widget" "") emptyParser =
        some ⟨(⟨specEnv.TransToValidSchemeType "Widget",
                specEnv.TransToValidSchemeType "Widget", ""⟩, none), emptyParser, []⟩ ∧
      getPropertyName specEnv (.Ident "Widget" "") emptyParser =
        some ⟨(⟨"string", "string", ""⟩, none), emptyParser, []⟩ :=
  have h := getPropertyName_bare specEnv "Widget" emptyParser
    [("INT", "integer"), ("BOOL", "boolean")] rfl
  ⟨h.1, h.2 rfl (by decide)⟩

/-! ## C14, C15: narrow primitives and their aliases -/

/-- A name whose upper-casing has an entry in the narrow table converts to
that entry: `"string"` for `TIME`, `OBJECTID` and `UUID`, `"number"` for
`DECIMAL`. -/
theorem convertFromSpecificToPrimitive_of_lookup (env : Env) (s primitiveType : String)
    (h : narrowPrimitiveTable.lookup (env.ToUpper s) = some primitiveType) :
    convertFromSpecificToPrimitive env s = (primitiveType, none) ∧
      (env.ToUpper s ∈ ["TIME", "OBJECTID", "UUID"] → primitiveType = "string") ∧
      (env.ToUpper s = "DECIMAL" → primitiveType = "number") := by
  unfold convertFromSpecificToPrimitive
  generalize env.ToUpper s = u at h
  by_cases h1 : u = "TIME"
  · subst h1
    obtain rfl : "string" = primitiveType := by simpa [narrowPrimitiveTable, List.lookup] using h
    decide
  by_cases h2 : u = "OBJECTID"
  · subst h2
    obtain rfl : "string" = primitiveType := by simpa [narrowPrimitiveTable, List.lookup] using h
    decide
  by_cases h3 : u = "UUID"
  · subst h3
    obtain rfl : "string" = primitiveType := by simpa [narrowPrimitiveTable, List.lookup] using h
    decide
  by_cases h4 : u = "DECIMAL"
  · subst h4
    obtain rfl : "number" = primitiveType := by simpa [narrowPrimitiveTable, List.lookup] using h
    decide
  have hb1 : (u == "TIME") = false := by simpa using h1
  have hb2 : (u == "OBJECTID") = false := by simpa using h2
  have hb3 : (u == "UUID") = false := by simpa using h3
  have hb4 : (u == "DECIMAL") = false := by simpa using h4
  simp [narrowPrimitiveTable, List.lookup, hb1, hb2, hb3, hb4] at h

/-- The resolver on a name of the narrow table (property.go:53-55). -/
theorem parseFieldSelectorExpr_narrow (env : Env) (name path primitiveType : String)
    (parser : Parser) (propertyNewFunc : String → String → propertyName)
    (h : convertFromSpecificToPrimitive env name = (primitiveType, none)) :
    parseFieldSelectorExpr env name path parser propertyNewFunc =
      some ⟨propertyNewFunc primitiveType "", parser, []⟩ := by
  obtain ⟨pkgName, hpkg⟩ := shortPkgName_isSome path
  rw [parseFieldSelectorExpr_of_shortPkgName env name path pkgName parser propertyNewFunc hpkg, h]

/-- C14: for every qualified identifier (non-empty `Path`) whose upper-cased
name is `TIME`, `OBJECTID`, `UUID` or `DECIMAL`, with `primitiveType` the
narrow-table value (`"string"` for the first three, `"number"` for `DECIMAL`):
`getPropertyName` returns without error `SchemaType = primitiveType`,
`ArrayType = "string"` and empty `CrossPkg`; the resolver returns the call
site's constructor on `(primitiveType, "")`, so `getArrayPropertyName` on the
identifier, directly or under one pointer, returns `SchemaType = "array"` with
`ArrayType = primitiveType`; in every case the result is the same for every
registry and override map, the parser is unchanged and no invocation is
made. -/
theorem getPropertyName_narrow (env : Env) (name path primitiveType : String)
    (parser : Parser) (propertyNewFunc : String → String → propertyName) (Len : Option String)
    (hpath : path ≠ "")
    (htable : narrowPrimitiveTable.lookup (env.ToUpper name) = some primitiveType) :
    getPropertyName env (.Ident name path) parser =
        some ⟨(⟨primitiveType, "string", ""⟩, none), parser, []⟩ ∧
      parseFieldSelectorExpr env name path parser propertyNewFunc =
        some ⟨propertyNewFunc primitiveType "", parser, []⟩ ∧
      getArrayPropertyName env Len (.Ident name path) parser =
        some ⟨⟨"array", primitiveType, ""⟩, parser, []⟩ ∧
      getArrayPropertyName env Len (.StarExpr (.Ident name path)) parser =
        some ⟨⟨"array", primitiveType, ""⟩, parser, []⟩ ∧
      (env.ToUpper name ∈ ["TIME", "OBJECTID", "UUID"] → primitiveType = "string") ∧
      (env.ToUpper name = "DECIMAL" → primitiveType = "number") := by
  obtain ⟨hconv, hstr, hnum⟩ := convertFromSpecificToPrimitive_of_lookup env name primitiveType htable
  refine ⟨?_, parseFieldSelectorExpr_narrow env name path primitiveType parser _ hconv,
    ?_, ?_, hstr, hnum⟩
  · rw [getPropertyName_qualified env name path parser hpath,
      parseFieldSelectorExpr_narrow env name path primitiveType parser _ hconv]
    rfl
  · rw [getArrayPropertyName_of_elementQualified env Len _ parser name path
        (by simp [elementQualified, hpath]),
      parseFieldSelectorExpr_narrow env name path primitiveType parser _ hconv]
    rfl
  · rw [getArrayPropertyName_of_elementQualified env Len _ parser name path
        (by simp [elementQualified, hpath]),
      parseFieldSelectorExpr_narrow env name path primitiveType parser _ hconv]
    rfl

/-- C14, witness: the name `uuid` in lower case, with a registry that holds
another type. -/
theorem getPropertyName_narrow_witness :
    getPropertyName exampleEnv (.Ident "uuid" "github.com/google/uuid") widgetParser =
        some ⟨(⟨"string", "string", ""⟩, none), widgetParser, []⟩ ∧
      getArrayPropertyName exampleEnv none (.StarExpr (.Ident "uuid" "github.com/google/uuid"))
        widgetParser = some ⟨⟨"array", "string", ""⟩, widgetParser, []⟩ :=
  have h := getPropertyName_narrow exampleEnv "uuid" "github.com/google/uuid" "string"
    widgetParser newProperty none (by decide) (by decide)
  ⟨h.1, h.2.2.2.1⟩

/-- C15, counterexample: `models.Stamp`, declared as the unqualified identifier
`Time`, is not taken for an alias: the resolver returns the constructor on
`("Stamp", "models")` after one `ParseDefinition` invocation; and
`models.Time`, declared as `decimal.Decimal`, resolves by its own name to
`"string"`, not to the `"number"` of the aliased name. -/
theorem parseFieldSelectorExpr_alias_not_taken :
    (parseFieldSelectorExpr exampleEnv "Stamp" "example.com/models" aliasParser newProperty).map
        (fun r => (r.val, r.calls.length)) = some (⟨"Stamp", "string", "models"⟩, 1) ∧
      (parseFieldSelectorExpr exampleEnv "Time" "example.com/models" aliasParser newProperty).map
        (fun r => (r.val, r.calls.length)) = some (⟨"string", "string", ""⟩, 0) := by
  decide

/-- C15 (amended): for every qualified identifier whose name is not in the
narrow table, whose short package name is non-empty and whose
`(package, name)` entry of `TypeDefinitions` is a declaration that is itself a
qualified identifier (non-empty `Path`) with a narrow-primitive name,
`parseFieldSelectorExpr` returns the constructor on `(primitiveType, "")`,
with `primitiveType` the narrow-table value of the aliased name: `CrossPkg` is
empty, the parser is unchanged and `ParseDefinition` is not invoked. -/
theorem parseFieldSelectorExpr_alias (env : Env) (name path pkgName : String) (parser : Parser)
    (propertyNewFunc : String → String → propertyName) (typeDefinitions : TypeSpec)
    (aliasName aliasPath primitiveType : String)
    (hnarrow : env.ToUpper name ∉ ["TIME", "OBJECTID", "UUID", "DECIMAL"])
    (hpkg : shortPkgName path = some pkgName) (hne : pkgName ≠ "")
    (htd : parser.TypeDefinitions pkgName name = some typeDefinitions)
    (hdecl : typeDefinitions.Type_ = .Ident aliasName aliasPath) (hqual : aliasPath ≠ "")
    (htable : narrowPrimitiveTable.lookup (env.ToUpper aliasName) = some primitiveType) :
    parseFieldSelectorExpr env name path parser propertyNewFunc =
      some ⟨propertyNewFunc primitiveType "", parser, []⟩ := by
  have hconv := (convertFromSpecificToPrimitive_of_lookup env aliasName primitiveType htable).1
  have halias : aliasedPrimitive env typeDefinitions = some primitiveType := by
    unfold aliasedPrimitive
    rw [hdecl]
    simp [hqual, hconv]
  rw [parseFieldSelectorExpr_of_shortPkgName env name path pkgName parser propertyNewFunc hpkg,
    convertFromSpecificToPrimitive_of_not_narrow env name hnarrow]
  simp [hne, htd, halias]

/-- C15, witness: `models.Price`, declared as `decimal.Decimal`, under the
array-element constructor; and the slices of pointers to `models.Price` and
to `models.Decimal` resolve through `getPropertyName` to
`SchemaType = "array"`, `ArrayType = "number"`. -/
theorem parseFieldSelectorExpr_alias_witness :
    parseFieldSelectorExpr exampleEnv "Price" "example.com/models" aliasParser newArrayProperty =
        some ⟨⟨"array", "number", ""⟩, aliasParser, []⟩ ∧
      (getPropertyName exampleEnv
        (.ArrayType none (.StarExpr (.Ident "Price" "example.com/models"))) aliasParser).map
        (fun r => (r.val, r.calls.length)) = some ((⟨"array", "number", ""⟩, none), 0) ∧
      (getPropertyName exampleEnv
        (.ArrayType none (.StarExpr (.Ident "Decimal" "example.com/models"))) aliasParser).map
        (fun r => (r.val, r.calls.length)) = some ((⟨"array", "number", ""⟩, none), 0) :=
  ⟨parseFieldSelectorExpr_alias exampleEnv "Price" "example.com/models" "models" aliasParser
      newArrayProperty ⟨"Price", decimalIdent⟩ "Decimal" "github.com/shopspring/decimal" "number"
      (by decide) (by decide) (by decide) (by rfl) rfl (by decide) (by decide),
    by decide, by decide⟩

/-! ## C16, C17: overrides -/

/-- C16: for every expression that is not a qualified identifier, of any
shape, whose text is a key of `CustomPrimitiveTypes` with value `v`,
`getPropertyName` returns without error exactly `SchemaType = v`,
`ArrayType = v`, empty `CrossPkg`, with the parser unchanged and no
invocation; and for a qualified identifier the result is the resolver's, the
same whatever the text of the identifier is, that text being an override key
or not. -/
theorem getPropertyName_override_by_text (env : Env) (expr : Expr) (parser : Parser)
    (v name path : String) (sprint : Expr → String)
    (hq : ∀ n q, expr = .Ident n q → q = "")
    (hkey : parser.CustomPrimitiveTypes (env.Sprint expr) = some v) (hpath : path ≠ "") :
    getPropertyName env expr parser = some ⟨(⟨v, v, ""⟩, none), parser, []⟩ ∧
      getPropertyName env (.Ident name path) parser =
        (parseFieldSelectorExpr env name path parser newProperty).map
          (fun r => ⟨(r.val, none), r.parser, r.calls⟩) ∧
      getPropertyName { env with Sprint := sprint } (.Ident name path) parser =
        getPropertyName env (.Ident name path) parser := by
  refine ⟨getPropertyName_override env expr parser v ?_ hkey,
    getPropertyName_qualified env name path parser hpath, ?_⟩
  · cases expr with
    | Ident n q =>
      have := hq n q rfl
      subst this
      simp [qualifiedIdent]
    | _ => rfl
  · rw [getPropertyName_qualified env name path parser hpath,
      getPropertyName_qualified _ name path parser hpath]
    rfl

/-- C16, witness: a channel type, outside the fixed set, whose text is an
override key; and the qualified identifier `pkg.Widget`. -/
theorem getPropertyName_override_by_text_witness :
    getPropertyName exampleEnv (.ChanType 0 (.Ident "int" ""))
        (overrideParser (exampleEnv.Sprint (.ChanType 0 (.Ident "int" ""))) "integer") =
        some ⟨(⟨"integer", "integer", ""⟩, none),
          overrideParser (exampleEnv.Sprint (.ChanType 0 (.Ident "int" ""))) "integer", []⟩ ∧
      getPropertyName { exampleEnv with Sprint := fun _ => "Widget" } (.Ident "Widget" "pkg")
        (overrideParser (exampleEnv.Sprint (.ChanType 0 (.Ident "int" ""))) "integer") =
        getPropertyName exampleEnv (.Ident "Widget" "pkg")
          (overrideParser (exampleEnv.Sprint (.ChanType 0 (.Ident "int" ""))) "integer") :=
  have h := getPropertyName_override_by_text exampleEnv (.ChanType 0 (.Ident "int" ""))
    (overrideParser (exampleEnv.Sprint (.ChanType 0 (.Ident "int" ""))) "integer")
    "integer" "Widget" "pkg" (fun _ => "Widget") (fun _ _ h => by cases h) (by decide) (by decide)
  ⟨h.1, h.2.2⟩

/-- C17, counterexample: `other.Thing` is overridden to `"integer"` and the
text of the slice of `other.Thing` is itself an override key, with value
`"boolean"`: the resolver answers `"integer"` for the element and
`getPropertyName` answers `SchemaType = "boolean"` for the slice. -/
theorem getPropertyName_array_of_overridden_text_key :
    (parseFieldSelectorExpr exampleEnv "Thing" "example.com/other"
        (twoOverrideParser "Thing" "integer"
          (exampleEnv.Sprint (.ArrayType none (.Ident "Thing" "example.com/other"))) "boolean")
        newArrayProperty).map (fun r => r.val) = some ⟨"integer", "integer", ""⟩ ∧
      (getPropertyName exampleEnv (.ArrayType none (.Ident "Thing" "example.com/other"))
        (twoOverrideParser "Thing" "integer"
          (exampleEnv.Sprint (.ArrayType none (.Ident "Thing" "example.com/other"))) "boolean")).map
        (fun r => r.val) = some (⟨"boolean", "boolean", ""⟩, none) := by
  decide

/-- C17 (amended): for every qualified identifier whose name is not in the
narrow table, whose short package name is non-empty, whose `(package, name)` is
not in `TypeDefinitions` and whose name is a key of `CustomPrimitiveTypes` with
value `v`, `parseFieldSelectorExpr` returns exactly `SchemaType = v`,
`ArrayType = v`, empty `CrossPkg` for every constructor, so that an array of
such an element whose own text is not an override key resolves through
`getPropertyName` to `SchemaType = v` rather than `"array"`; the parser is
unchanged and no invocation is made. -/
theorem parseFieldSelectorExpr_override (env : Env) (name path pkgName v : String)
    (parser : Parser) (propertyNewFunc : String → String → propertyName) (Len : Option String)
    (hpath : path ≠ "")
    (hnarrow : env.ToUpper name ∉ ["TIME", "OBJECTID", "UUID", "DECIMAL"])
    (hpkg : shortPkgName path = some pkgName) (hne : pkgName ≠ "")
    (htd : parser.TypeDefinitions pkgName name = none)
    (hover : parser.CustomPrimitiveTypes name = some v)
    (hkey : parser.CustomPrimitiveTypes (env.Sprint (.ArrayType Len (.Ident name path))) = none) :
    parseFieldSelectorExpr env name path parser propertyNewFunc =
        some ⟨⟨v, v, ""⟩, parser, []⟩ ∧
      getPropertyName env (.ArrayType Len (.Ident name path)) parser =
        some ⟨(⟨v, v, ""⟩, none), parser, []⟩ := by
  have hres : ∀ f, parseFieldSelectorExpr env name path parser f =
      some ⟨⟨v, v, ""⟩, parser, []⟩ := by
    intro f
    rw [parseFieldSelectorExpr_of_shortPkgName env name path pkgName parser f hpkg,
      convertFromSpecificToPrimitive_of_not_narrow env name hnarrow]
    simp [hne, htd, hover]
  refine ⟨hres propertyNewFunc, ?_⟩
  rw [getPropertyName_array_eq env Len _ parser (fun _ h => by cases h) hkey,
    getArrayPropertyName_of_elementQualified env Len _ parser name path
      (by simp [elementQualified, hpath]),
    hres newArrayProperty]
  rfl

/-- C17, witness: the slice of `other.Thing`, overridden to `"integer"`. -/
theorem parseFieldSelectorExpr_override_witness :
    parseFieldSelectorExpr exampleEnv "Thing" "example.com/other"
        (overrideParser "Thing" "integer") newProperty =
        some ⟨⟨"integer", "integer", ""⟩, overrideParser "Thing" "integer", []⟩ ∧
      getPropertyName exampleEnv (.ArrayType none (.Ident "Thing" "example.com/other"))
        (overrideParser "Thing" "integer") =
        some ⟨(⟨"integer", "integer", ""⟩, none), overrideParser "Thing" "integer", []⟩ :=
  parseFieldSelectorExpr_override exampleEnv "Thing" "example.com/other" "other" "integer"
    (overrideParser "Thing" "integer") newProperty none
    (by decide) (by decide) (by decide) (by decide) rfl (by decide) (by decide)

/-! ## C18: the short package name -/

/-- Splitting `pre ++ a :: seg` on `a`, where `a` does not occur in `seg`, gives
a list that ends with `seg`. -/
theorem splitOn_append_sep {α : Type} [DecidableEq α] (a : α) (pre seg : List α)
    (h : a ∉ seg) : ∃ init, init ≠ [] ∧ (pre ++ a :: seg).splitOn a = init ++ [seg] := by
  have hseg : seg.splitOnP (· == a) = [seg] :=
    List.splitOnP_eq_single _ _ (fun x hx hxa => h (by simpa using (beq_iff_eq.mp hxa) ▸ hx))
  induction pre with
  | nil =>
    refine ⟨[[]], by simp, ?_⟩
    simp [List.splitOn, List.splitOnP_cons, hseg]
  | cons x pre ih =>
    obtain ⟨init, hne, hinit⟩ := ih
    simp only [List.splitOn] at hinit ⊢
    rw [List.cons_append, List.splitOnP_cons, hinit]
    split_ifs
    · exact ⟨[] :: init, by simp, rfl⟩
    · cases init with
      | nil => exact absurd rfl hne
      | cons i is => exact ⟨(x :: i) :: is, by simp, rfl⟩

/-- The short package name of a path without `/` is the path. -/
theorem shortPkgName_of_no_slash (seg : List Char) (h : '/' ∉ seg) :
    shortPkgName (String.mk seg) = some (String.mk seg) := by
  have hseg : seg.splitOn '/' = [seg] :=
    List.splitOnP_eq_single _ _ (fun x hx hxa => h (by simpa using (beq_iff_eq.mp hxa) ▸ hx))
  simp [shortPkgName, strings_Split_slash, hseg]

/-- The short package name of `pre/seg`, where `seg` has no `/`, is `seg`. -/
theorem shortPkgName_of_last_slash (pre seg : List Char) (h : '/' ∉ seg) :
    shortPkgName (String.mk (pre ++ '/' :: seg)) = some (String.mk seg) := by
  obtain ⟨init, _, hinit⟩ := splitOn_append_sep '/' pre seg h
  simp [shortPkgName, strings_Split_slash, hinit]

/-- C18: splitting any `Path` on `/` gives a non-empty list, so the index of
its last element is in range and the short package name is defined; it is the
last `/`-separated segment: the whole path when the path has no `/`, and what
follows the last `/` otherwise. The result of `parseFieldSelectorExpr` depends
on `Path` only through it: two identifiers with the same name and the same
last segment resolve identically. When the last segment is empty, a name
outside the narrow table resolves to `SchemaType = "string"`,
`ArrayType = "string"`, whatever the registry and the override map hold. -/
theorem parseFieldSelectorExpr_shortPkgName (env : Env) (name path path2 : String)
    (parser : Parser) (propertyNewFunc : String → String → propertyName)
    (pre seg : List Char) :
    strings_Split_slash path ≠ [] ∧ (∃ pkgName, shortPkgName path = some pkgName) ∧
      ('/' ∉ seg → shortPkgName (String.mk seg) = some (String.mk seg) ∧
        shortPkgName (String.mk (pre ++ '/' :: seg)) = some (String.mk seg)) ∧
      (shortPkgName path = shortPkgName path2 →
        parseFieldSelectorExpr env name path parser propertyNewFunc =
          parseFieldSelectorExpr env name path2 parser propertyNewFunc) ∧
      (shortPkgName path = some "" →
        env.ToUpper name ∉ ["TIME", "OBJECTID", "UUID", "DECIMAL"] →
        parseFieldSelectorExpr env name path parser propertyNewFunc =
          some ⟨⟨"string", "string", ""⟩, parser, []⟩) := by
  refine ⟨strings_Split_slash_ne_nil path, shortPkgName_isSome path,
    fun hseg => ⟨shortPkgName_of_no_slash seg hseg, shortPkgName_of_last_slash pre seg hseg⟩,
    ?_, ?_⟩
  · intro hsame
    obtain ⟨pkgName, hpkg⟩ := shortPkgName_isSome path
    rw [parseFieldSelectorExpr_of_shortPkgName env name path pkgName parser propertyNewFunc hpkg,
      parseFieldSelectorExpr_of_shortPkgName env name path2 pkgName parser propertyNewFunc
        (hsame ▸ hpkg)]
  · intro hempty hnarrow
    rw [parseFieldSelectorExpr_of_shortPkgName env name path "" parser propertyNewFunc hempty,
      convertFromSpecificToPrimitive_of_not_narrow env name hnarrow]
    simp

/-- C18, witness: two import paths of `Widget` that end in `pkg`; the segment
`pkg` of `example.com/pkg`; and a path that ends in `/`. -/
theorem parseFieldSelectorExpr_shortPkgName_witness :
    parseFieldSelectorExpr exampleEnv "Widget" "example.com/pkg" widgetParser newProperty =
        parseFieldSelectorExpr exampleEnv "Widget" "other.org/x/pkg" widgetParser newProperty ∧
      shortPkgName "example.com/pkg" = some "pkg" ∧
      parseFieldSelectorExpr exampleEnv "Widget" "pkg/" widgetParser newProperty =
        some ⟨⟨"string", "string", ""⟩, widgetParser, []⟩ :=
  ⟨(parseFieldSelectorExpr_shortPkgName exampleEnv "Widget" "example.com/pkg" "other.org/x/pkg"
      widgetParser newProperty "example.com".toList "pkg".toList).2.2.2.1 (by decide),
    ((parseFieldSelectorExpr_shortPkgName exampleEnv "Widget" "example.com/pkg" "other.org/x/pkg"
      widgetParser newProperty "example.com".toList "pkg".toList).2.2.1 (by decide)).2,
    (parseFieldSelectorExpr_shortPkgName exampleEnv "Widget" "pkg/" "pkg/"
      widgetParser newProperty [] []).2.2.2.2 (by decide) (by decide)⟩

/-! ## C19: the invocations of `ParseDefinition` -/

/-- The invocations of the resolver: at most one, made exactly under the
condition `Invokes`, with the parser that `ParseDefinition` leaves; without
invocation the parser is unchanged. -/
theorem parseFieldSelectorExpr_calls (env : Env) (name path : String) (parser : Parser)
    (propertyNewFunc : String → String → propertyName) :
    ∃ r, parseFieldSelectorExpr env name path parser propertyNewFunc = some r ∧
      r.calls.length ≤ 1 ∧ (∀ c, c ∈ r.calls ↔ Invokes env parser name path c) ∧
      (r.calls = [] → r.parser = parser) ∧
      (∀ c ∈ r.calls, r.parser = env.ParseDefinition parser c.1 c.2.1 c.2.2) := by
  obtain ⟨pkgName, hpkg⟩ := shortPkgName_isSome path
  have hsame : ∀ c : Call, shortPkgName path = some c.1 → c.1 = pkgName := by
    intro c hc
    rw [hpkg] at hc
    exact (Option.some.inj hc).symm
  rw [parseFieldSelectorExpr_of_shortPkgName env name path pkgName parser propertyNewFunc hpkg]
  split
  · rename_i primitiveType hok
    refine ⟨_, rfl, by simp, fun c => ⟨fun hc => by simp at hc, fun hc => ?_⟩,
      fun _ => rfl, fun c hc => by simp at hc⟩
    exact absurd (convertFromSpecificToPrimitive_ok_mem env name primitiveType hok) hc.1
  · rename_i p e herr
    have hnarrow := convertFromSpecificToPrimitive_error env name p e herr
    split_ifs with hne
    · split
      · rename_i typeDefinitions htd
        have htd2 : ∀ c : Call, Invokes env parser name path c → c.2.2 = typeDefinitions := by
          intro c hc
          have h5 := hc.2.2.2.2.1
          rw [hsame c hc.2.1, htd] at h5
          exact (Option.some.inj h5).symm
        split
        · rename_i primitiveType halias
          refine ⟨_, rfl, by simp, fun c => ⟨fun hc => by simp at hc, fun hc => ?_⟩,
            fun _ => rfl, fun c hc => by simp at hc⟩
          have hnone := aliasedPrimitive_eq_none env c.2.2 hc.2.2.2.2.2
          rw [htd2 c hc, halias] at hnone
          simp at hnone
        · rename_i halias
          refine ⟨_, rfl, by simp, fun c => ⟨fun hc => ?_, fun hc => ?_⟩,
            fun h => by simp at h, fun c hc => ?_⟩
          · obtain rfl : c = (pkgName, name, typeDefinitions) := by simpa using hc
            exact ⟨hnarrow, hpkg, hne, rfl, htd, aliasedPrimitive_none env typeDefinitions halias⟩
          · have h1 := hsame c hc.2.1
            have h2 := hc.2.2.2.1
            have h3 := htd2 c hc
            obtain ⟨c1, c2, c3⟩ := c
            simp only at h1 h2 h3
            subst h1 h2 h3
            simp
          · obtain rfl : c = (pkgName, name, typeDefinitions) := by simpa using hc
            rfl
      · rename_i htd
        have hno : ∀ c : Call, ¬ Invokes env parser name path c := by
          intro c hc
          have h5 := hc.2.2.2.2.1
          rw [hsame c hc.2.1, htd] at h5
          simp at h5
        split
        · exact ⟨_, rfl, by simp, fun c => ⟨fun hc => by simp at hc, fun hc => absurd hc (hno c)⟩,
            fun _ => rfl, fun c hc => by simp at hc⟩
        · exact ⟨_, rfl, by simp, fun c => ⟨fun hc => by simp at hc, fun hc => absurd hc (hno c)⟩,
            fun _ => rfl, fun c hc => by simp at hc⟩
    · refine ⟨_, rfl, by simp, fun c => ⟨fun hc => by simp at hc, fun hc => ?_⟩,
        fun _ => rfl, fun c hc => by simp at hc⟩
      have h1 := hsame c hc.2.1
      exact absurd (h1 ▸ hc.2.2.1) hne

/-- The parser effect of `getPropertyName` is that of the resolver on the
qualified identifier it reaches, and none when it reaches no qualified
identifier. -/
theorem getPropertyName_reached (env : Env) (parser : Parser) (expr : Expr) :
    (∀ name path, reachedQualified env parser expr = some (name, path) →
        ∃ f r0 r, parseFieldSelectorExpr env name path parser f = some r0 ∧
          getPropertyName env expr parser = some r ∧ r.parser = r0.parser ∧
          r.calls = r0.calls) ∧
      (reachedQualified env parser expr = none →
        ∃ r, getPropertyName env expr parser = some r ∧ r.parser = parser ∧ r.calls = []) := by
  induction expr using Expr.star_induction with
  | hstar X ih =>
    cases hkey : parser.CustomPrimitiveTypes (env.Sprint (.StarExpr X)) with
    | some v =>
      have hreach : reachedQualified env parser (.StarExpr X) = none := by
        simp [reachedQualified, hkey]
      rw [hreach, getPropertyName_override env (.StarExpr X) parser v rfl hkey]
      exact ⟨fun _ _ h => (by cases h), fun _ => ⟨_, rfl, rfl, rfl⟩⟩
    | none =>
      have hreach : reachedQualified env parser (.StarExpr X) =
          reachedQualified env parser X := by
        simp [reachedQualified, hkey]
      rw [hreach, getPropertyName_star env X parser hkey]
      exact ih
  | hbase e hne =>
    have hconst : ∀ e0 : Expr, qualifiedIdent e0 = none →
        reachedQualified env parser e0 = none →
        (parser.CustomPrimitiveTypes (env.Sprint e0) = none → ∀ r,
          getPropertyName env e0 parser = some r → r.parser = parser ∧ r.calls = []) →
        (∀ name path, reachedQualified env parser e0 = some (name, path) →
          ∃ f r0 r, parseFieldSelectorExpr env name path parser f = some r0 ∧
            getPropertyName env e0 parser = some r ∧ r.parser = r0.parser ∧
            r.calls = r0.calls) ∧
        (reachedQualified env parser e0 = none →
          ∃ r, getPropertyName env e0 parser = some r ∧ r.parser = parser ∧ r.calls = []) := by
      intro e0 hq hreach hrest
      refine ⟨fun n q h => (by rw [hreach] at h; cases h), fun _ => ?_⟩
      cases hkey : parser.CustomPrimitiveTypes (env.Sprint e0) with
      | some v => exact ⟨_, getPropertyName_override env e0 parser v hq hkey, rfl, rfl⟩
      | none =>
        obtain ⟨r, hr, _⟩ := getPropertyName_outcomes env parser e0
        exact ⟨r, hr, hrest hkey r hr⟩
    cases e with
    | StarExpr X => exact absurd rfl (hne X)
    | Ident n q =>
      by_cases hq : q = ""
      · subst hq
        refine hconst _ (by simp [qualifiedIdent]) (by simp [reachedQualified]) ?_
        intro hkey r hr
        rw [getPropertyName_eq] at hr
        simp only [qualifiedIdent, ne_eq, not_true_eq_false, if_false, hkey] at hr
        obtain rfl := Option.some.inj hr
        exact ⟨rfl, rfl⟩
      · have hreach : reachedQualified env parser (.Ident n q) = some (n, q) := by
          simp [reachedQualified, hq]
        rw [hreach]
        refine ⟨fun name path h => ?_, fun h => by cases h⟩
        obtain ⟨rfl, rfl⟩ := Prod.mk.inj (Option.some.inj h)
        obtain ⟨_, r0, _, hr0, _⟩ := parseFieldSelectorExpr_outcomes env n q parser newProperty
        refine ⟨newProperty, r0, ⟨(r0.val, none), r0.parser, r0.calls⟩, hr0, ?_, rfl, rfl⟩
        rw [getPropertyName_qualified env n q parser hq, hr0]
        rfl
    | ArrayType Len Elt =>
      cases hkey : parser.CustomPrimitiveTypes (env.Sprint (.ArrayType Len Elt)) with
      | some v =>
        have hreach : reachedQualified env parser (.ArrayType Len Elt) = none := by
          simp [reachedQualified, hkey]
        rw [hreach, getPropertyName_override env (.ArrayType Len Elt) parser v rfl hkey]
        exact ⟨fun _ _ h => (by cases h), fun _ => ⟨_, rfl, rfl, rfl⟩⟩
      | none =>
        have hreach : reachedQualified env parser (.ArrayType Len Elt) =
            elementQualified Elt := by
          simp [reachedQualified, hkey]
        rw [hreach]
        by_cases hstruct : ∃ Fields, Elt = .StructType Fields
        · obtain ⟨Fields, rfl⟩ := hstruct
          refine ⟨fun _ _ h => (by simp [elementQualified] at h), fun _ => ?_⟩
          refine ⟨⟨(⟨"array", "object", ""⟩, none), parser, []⟩, ?_, rfl, rfl⟩
          rw [getPropertyName_eq]
          simp [qualifiedIdent, hkey]
        · have hstruct2 : ∀ Fields, Elt ≠ .StructType Fields :=
            fun Fields h => hstruct ⟨Fields, h⟩
          rw [getPropertyName_array_eq env Len Elt parser hstruct2 hkey]
          refine ⟨fun name path h => ?_, fun h => ?_⟩
          · obtain ⟨_, r0, _, hr0, _⟩ :=
              parseFieldSelectorExpr_outcomes env name path parser newArrayProperty
            refine ⟨newArrayProperty, r0, ⟨(r0.val, none), r0.parser, r0.calls⟩, hr0, ?_,
              rfl, rfl⟩
            rw [getArrayPropertyName_of_elementQualified env Len Elt parser name path h, hr0]
            rfl
          · rw [getArrayPropertyName_of_not_elementQualified env Len Elt parser h]
            exact ⟨_, rfl, rfl, rfl⟩
    | MapType _ _ =>
      refine hconst _ rfl rfl ?_
      intro hkey r hr
      rw [getPropertyName_eq] at hr
      simp only [qualifiedIdent, hkey] at hr
      obtain rfl := Option.some.inj hr
      exact ⟨rfl, rfl⟩
    | StructType _ =>
      refine hconst _ rfl rfl ?_
      intro hkey r hr
      rw [getPropertyName_eq] at hr
      simp only [qualifiedIdent, hkey] at hr
      obtain rfl := Option.some.inj hr
      exact ⟨rfl, rfl⟩
    | InterfaceType _ =>
      refine hconst _ rfl rfl ?_
      intro hkey r hr
      rw [getPropertyName_eq] at hr
      simp only [qualifiedIdent, hkey] at hr
      obtain rfl := Option.some.inj hr
      exact ⟨rfl, rfl⟩
    | FuncType _ _ =>
      refine hconst _ rfl rfl ?_
      intro hkey r hr
      rw [getPropertyName_eq] at hr
      simp only [qualifiedIdent, hkey] at hr
      obtain rfl := Option.some.inj hr
      exact ⟨rfl, rfl⟩
    | ChanType _ _ =>
      refine hconst _ rfl rfl ?_
      intro hkey r hr
      rw [getPropertyName_eq] at hr
      simp only [qualifiedIdent, hkey] at hr
      obtain rfl := Option.some.inj hr
      exact ⟨rfl, rfl⟩
    | SelectorExpr _ _ =>
      refine hconst _ rfl rfl ?_
      intro hkey r hr
      rw [getPropertyName_eq] at hr
      simp only [qualifiedIdent, hkey] at hr
      obtain rfl := Option.some.inj hr
      exact ⟨rfl, rfl⟩
    | ParenExpr _ =>
      refine hconst _ rfl rfl ?_
      intro hkey r hr
      rw [getPropertyName_eq] at hr
      simp only [qualifiedIdent, hkey] at hr
      obtain rfl := Option.some.inj hr
      exact ⟨rfl, rfl⟩
    | Ellipsis _ =>
      refine hconst _ rfl rfl ?_
      intro hkey r hr
      rw [getPropertyName_eq] at hr
      simp only [qualifiedIdent, hkey] at hr
      obtain rfl := Option.some.inj hr
      exact ⟨rfl, rfl⟩
    | OtherExpr _ =>
      refine hconst _ rfl rfl ?_
      intro hkey r hr
      rw [getPropertyName_eq] at hr
      simp only [qualifiedIdent, hkey] at hr
      obtain rfl := Option.some.inj hr
      exact ⟨rfl, rfl⟩

/-- C19: one `getPropertyName` call returns and invokes `ParseDefinition` at
most once; it makes the invocation `c` if and only if it reaches a qualified
identifier (at top level, under pointers, or as an array element possibly
under one pointer) whose name is not in the narrow table, whose short package
name is non-empty, whose `(package, name)` is in `TypeDefinitions` and whose
declaration is not a qualified identifier with a narrow-primitive name, `c`
being (short package name, name, declaration), and the parser it leaves is
then the one `ParseDefinition` leaves; in every other case it makes no
invocation and leaves the parser unchanged. -/
theorem getPropertyName_invocations (env : Env) (parser : Parser) (expr : Expr) :
    ∃ r, getPropertyName env expr parser = some r ∧ r.calls.length ≤ 1 ∧
      (∀ c, c ∈ r.calls ↔
        ∃ name path, reachedQualified env parser expr = some (name, path) ∧
          Invokes env parser name path c) ∧
      (r.calls = [] → r.parser = parser) ∧
      (∀ c ∈ r.calls, r.parser = env.ParseDefinition parser c.1 c.2.1 c.2.2) := by
  obtain ⟨hsome, hnone⟩ := getPropertyName_reached env parser expr
  cases hreach : reachedQualified env parser expr with
  | none =>
    obtain ⟨r, hr, hp, hc⟩ := hnone hreach
    refine ⟨r, hr, by simp [hc], fun c => ⟨fun h => by simp [hc] at h, fun h => ?_⟩,
      fun _ => hp, fun c h => by simp [hc] at h⟩
    obtain ⟨_, _, h, _⟩ := h
    cases h
  | some np =>
    obtain ⟨name, path⟩ := np
    obtain ⟨f, r0, r, hr0, hr, hp, hc⟩ := hsome name path hreach
    obtain ⟨r1, hr1, hlen, hiff, hunch, hpd⟩ := parseFieldSelectorExpr_calls env name path parser f
    rw [hr0] at hr1
    obtain rfl : r0 = r1 := Option.some.inj hr1
    refine ⟨r, hr, by rw [hc]; exact hlen, fun c => ?_, fun h => ?_, fun c h => ?_⟩
    · rw [hc, hiff c]
      constructor
      · intro h
        exact ⟨name, path, rfl, h⟩
      · rintro ⟨n, q, hnq, h⟩
        obtain ⟨rfl, rfl⟩ := Prod.mk.inj (Option.some.inj hnq)
        exact h
    · rw [hp]
      exact hunch (hc ▸ h)
    · rw [hp]
      exact hpd c (hc ▸ h)

/-! ## C20: the override map in `getArrayPropertyName` -/

/-- C20: in `getArrayPropertyName`, for an element that is a pointer to a bare
identifier with name `n` the result is exactly `SchemaType = "array"`,
`ArrayType = TransToValidSchemeType(n)`, whatever `CustomPrimitiveTypes`
holds; for an element that is the bare identifier itself, or any other element
with text `t` that is neither a qualified identifier nor a pointer to an
identifier, the result is `SchemaType = "array"`, `ArrayType = a`, where `a` is
`CustomPrimitiveTypes[TransToValidSchemeType(t)]` when that key exists and
`TransToValidSchemeType(t)` otherwise; in both cases the parser is unchanged
and no invocation is made. So `[]*Foo` and `[]Foo` can resolve to different
descriptors: with the override `string -> integer`, to `ArrayType = "string"`
and `ArrayType = "integer"`. -/
theorem getArrayPropertyName_override_map (env : Env) (Len : Option String) (n : String)
    (Elt : Expr) (parser : Parser) :
    getArrayPropertyName env Len (.StarExpr (.Ident n "")) parser =
        some ⟨⟨"array", env.TransToValidSchemeType n, ""⟩, parser, []⟩ ∧
      getArrayPropertyName env Len (.Ident n "") parser =
        some ⟨⟨"array",
               (match parser.CustomPrimitiveTypes
                  (env.TransToValidSchemeType (env.Sprintf_s (.Ident n ""))) with
                | some a => a
                | none => env.TransToValidSchemeType (env.Sprintf_s (.Ident n ""))), ""⟩,
              parser, []⟩ ∧
      (elementQualified Elt = none → (∀ m q, Elt ≠ .StarExpr (.Ident m q)) →
        getArrayPropertyName env Len Elt parser =
          some ⟨⟨"array",
                 (match parser.CustomPrimitiveTypes
                    (env.TransToValidSchemeType (env.Sprintf_s Elt)) with
                  | some a => a
                  | none => env.TransToValidSchemeType (env.Sprintf_s Elt)), ""⟩,
                parser, []⟩) ∧
      (getArrayPropertyName exampleEnv none (.StarExpr (.Ident "Foo" ""))
          (overrideParser "string" "integer")).map (fun r => r.val) =
        some ⟨"array", "string", ""⟩ ∧
      (getArrayPropertyName exampleEnv none (.Ident "Foo" "")
          (overrideParser "string" "integer")).map (fun r => r.val) =
        some ⟨"array", "integer", ""⟩ := by
  have hgen : ∀ E : Expr, elementQualified E = none → (∀ m q, E ≠ .StarExpr (.Ident m q)) →
      getArrayPropertyName env Len E parser =
        some ⟨⟨"array",
               (match parser.CustomPrimitiveTypes
                  (env.TransToValidSchemeType (env.Sprintf_s E)) with
                | some a => a
                | none => env.TransToValidSchemeType (env.Sprintf_s E)), ""⟩,
              parser, []⟩ := by
    intro E hq hstar
    rw [getArrayPropertyName_of_not_elementQualified env Len E parser hq]
    split
    · exact absurd rfl (hstar _ _)
    · rfl
  refine ⟨?_, hgen _ (by simp [elementQualified]) (fun _ _ h => by cases h), hgen Elt,
    by decide, by decide⟩
  rw [getArrayPropertyName_of_not_elementQualified env Len _ parser (by simp [elementQualified])]

/-- C20, witness: a slice of maps follows the generic path. -/
theorem getArrayPropertyName_override_map_witness :
    getArrayPropertyName exampleEnv none (.MapType (.Ident "string" "") (.Ident "int" ""))
        emptyParser =
      some ⟨⟨"array", "string", ""⟩, emptyParser, []⟩ :=
  (getArrayPropertyName_override_map exampleEnv none "Foo"
    (.MapType (.Ident "string" "") (.Ident "int" "")) emptyParser).2.2.1 rfl
    (fun _ _ h => by cases h)

end Swag
